import Mathlib

/-!
Verification of the PlanetScale driver core of this TypeORM fork.

The embedding models the JavaScript source shallowly:
* JS strings are `List Char` (`JStr`);
* JS numbers are modelled as integers except in `NumberUtils`, where the
  accumulation is performed on IEEE-754 doubles: there every intermediate
  value is a non-negative integer, and double arithmetic on integer
  operands returns the exact integer result rounded to 53 significant
  bits (round-to-nearest, ties-to-even), which `roundDouble` implements
  exactly over `Nat`;
* `undefined`/`null` and dynamic type dispatch are modelled with explicit
  sum types.
-/

namespace PS

/-- JS strings, modelled as lists of characters. -/
abbrev JStr := List Char

/-! ## NumberUtils (src/unnamed/part_000)

`numberFromBitString` accumulates `value += byte * Math.pow(2, 8*(len-1-i))`
into a JS number.  All quantities are non-negative integers; each `+` and
`*` on doubles yields the exact integer result rounded to the nearest
double, i.e. to 53 significant bits with ties to even. -/

/-- Number of binary digits of `n`, with explicit fuel (structural, so the
kernel can evaluate it). `bitLen fuel n` is correct whenever `n < 2 ^ fuel`. -/
def bitLen : Nat → Nat → Nat
  | 0, _ => 0
  | fuel + 1, n => if n = 0 then 0 else bitLen fuel (n / 2) + 1

/-- Rounds a non-negative integer to the nearest IEEE-754 double
(53 significant bits, round-to-nearest, ties to even).  This is exactly the
value produced by JS floating-point arithmetic whose exact result is the
integer `n` (fuel 1100 covers every finite double). -/
def roundDouble (n : Nat) : Nat :=
  let L := bitLen 1100 n
  if L ≤ 53 then n
  else
    let k := L - 53
    let q := n / 2 ^ k
    let r := n % 2 ^ k
    let half := 2 ^ (k - 1)
    if r < half then q * 2 ^ k
    else if half < r then (q + 1) * 2 ^ k
    else if q % 2 = 0 then q * 2 ^ k else (q + 1) * 2 ^ k

/-- JS double addition on non-negative integer operands. -/
def addD (a b : Nat) : Nat := roundDouble (a + b)

/-- JS double multiplication on non-negative integer operands. -/
def mulD (a b : Nat) : Nat := roundDouble (a * b)

/-- The buffer branch of `NumberUtils.numberFromBitString`:
`value += bit.readUint8(i) * Math.pow(2, 8 * (bit.length - 1 - i))`,
left to right.  `bit.readUint8` yields a byte in `0..255`. -/
def bufLoop : Nat → List Nat → Nat
  | value, [] => value
  | value, byte :: rest => bufLoop (addD value (mulD byte (2 ^ (8 * rest.length)))) rest

/-- Result of `numberFromBitString` applied to a Buffer of bytes. -/
def numberFromBitStringBuf (bytes : List Nat) : Nat := bufLoop 0 bytes

/-- The string branch of `NumberUtils.numberFromBitString`:
`const code = stringVal.charCodeAt(i) & 255` then the same accumulation.
`& 255` on a char code in `0..65535` is `% 256`. -/
def strLoop : Nat → List Nat → Nat
  | value, [] => value
  | value, code :: rest =>
      strLoop (addD value (mulD (code % 256) (2 ^ (8 * rest.length)))) rest

/-- Result of `numberFromBitString` applied to a string, given as its char codes. -/
def numberFromBitStringStr (codes : List Nat) : Nat := strLoop 0 codes

/-! ## Characters and JS string/number primitives -/

/-- The single-quote character. -/
def squote : Char := Char.ofNat 39

/-- The double-quote character. -/
def dquote : Char := Char.ofNat 34

/-- The backslash character. -/
def bslash : Char := Char.ofNat 92

/-- The minus sign. -/
def minusChar : Char := Char.ofNat 45

/-- Decimal digit characters of a natural number, most significant first
(JS number-to-string for non-negative integers). -/
def natToChars (n : Nat) : JStr :=
  if n = 0 then [Char.ofNat 48] else ((Nat.digits 10 n).map Nat.digitChar).reverse

/-- Value of a decimal digit string (most significant first). -/
def charsToNat (cs : JStr) : Nat :=
  cs.foldl (fun a c => a * 10 + (c.toNat - 48)) 0

/-- JS number-to-string coercion for integers. -/
def intToChars (n : Int) : JStr :=
  if n < 0 then minusChar :: natToChars n.natAbs else natToChars n.toNat

/-- Strict JS string-to-number coercion (unary `+`), restricted to the
integer-valued strings the claims exercise: the empty string coerces to 0,
an optional minus sign followed by digits to the signed value, and anything
else (in particular any non-numeric string) to NaN, modelled as `none`. -/
def jsStrToNum (cs : JStr) : Option Int :=
  match cs with
  | [] => some 0
  | c :: rest =>
      if c = minusChar then
        if !rest.isEmpty && rest.all Char.isDigit then some (-(charsToNat rest : Int)) else none
      else if cs.all Char.isDigit then some (charsToNat cs) else none

/-- JS `parseInt` on a string: an optional minus sign, then the longest
leading digit run; NaN (`none`) when there is no digit. -/
def parseIntStr (cs : JStr) : Option Int :=
  match cs with
  | [] => none
  | c :: rest =>
      if c = minusChar then
        let ds := rest.takeWhile Char.isDigit
        if ds.isEmpty then none else some (-(charsToNat ds : Int))
      else
        let ds := cs.takeWhile Char.isDigit
        if ds.isEmpty then none else some (charsToNat ds)

/-! ## JS values -/

/-- A JS runtime value, as far as the driver's marshalling layer observes it. -/
inductive Value where
  | vNull
  | vUndef
  | vNaN
  | vBool (b : Bool)
  | vInt (n : Int)
  | vStr (s : JStr)
  | vDate (ms : Int)
  | vArr (elems : List Value)
  | vBuf (bytes : List Nat)
  | vFunc (ret : JStr)

/-- JS strict equality `===` restricted to the comparisons the driver makes:
structural on primitives, `NaN === NaN` is false, and distinct objects
(arrays, buffers, dates, functions) compare by reference, which we
conservatively model as false (the driver only ever compares a fresh
primitive against stored enum entries). -/
def jsStrictEq : Value → Value → Bool
  | .vNull, .vNull => true
  | .vUndef, .vUndef => true
  | .vBool a, .vBool b => a == b
  | .vInt a, .vInt b => a == b
  | .vStr a, .vStr b => a == b
  | _, _ => false

/-- JS truthiness. -/
def truthy : Value → Bool
  | .vNull | .vUndef | .vNaN => false
  | .vBool b => b
  | .vInt n => n != 0
  | .vStr s => !s.isEmpty
  | _ => true

/-- JS string coercion of a primitive value (template `${v}` / `"" + v`).
Array/buffer/function coercions are placeholders: they are never exercised
by a theorem below. -/
def toStrV : Value → JStr
  | .vNull => ("null").toList
  | .vUndef => ("undefined").toList
  | .vNaN => ("NaN").toList
  | .vBool true => ("true").toList
  | .vBool false => ("false").toList
  | .vInt n => intToChars n
  | .vStr s => s
  | .vDate ms => intToChars ms
  | .vArr _ => []
  | .vBuf _ => []
  | .vFunc _ => []

/-- JS numeric coercion (what `isNaN(v)` negates and `+v` produces),
restricted to integer results; `none` is NaN. -/
def numCoerce : Value → Option Int
  | .vNull => some 0
  | .vUndef => none
  | .vNaN => none
  | .vBool true => some 1
  | .vBool false => some 0
  | .vInt n => some n
  | .vStr s => jsStrToNum s
  | .vDate ms => some ms
  | .vArr _ => none
  | .vBuf _ => none
  | .vFunc _ => none

/-- JS `parseInt(v)`: identity on integer numbers, prefix parse on strings,
NaN on everything else. -/
def parseIntV : Value → Value
  | .vInt n => .vInt n
  | .vStr s => match parseIntStr s with
      | some k => .vInt k
      | none => .vNaN
  | _ => .vNaN

/-! ## Column model -/

/-- Declared column type: the JS constructor aliases (`Number`, `String`,
`Boolean`, `Date`, `Buffer`) and the string-named dialect types. -/
inductive ColType where
  | jsNumber
  | jsString
  | jsBoolean
  | jsDate
  | jsBuffer
  | named (s : JStr)
  deriving DecidableEq

/-- Shorthand for a string-named column type. -/
def ctn (s : String) : ColType := .named s.toList

/-- JS three-state optional (a field that can be `undefined`, `null`, or a
value); `precision` uses all three states. -/
inductive JsOpt (α : Type) where
  | undef
  | jsnull
  | val (a : α)
  deriving DecidableEq

/-- Generation strategy of a generated column. -/
inductive GenStrategy where
  | increment
  | uuid
  deriving DecidableEq

/-- Declared default of a column (`ColumnMetadata.default`): absent,
explicit null, string, integer number, boolean, a zero-argument function
returning a string literal, or an array (for `set` columns). -/
inductive DefaultVal where
  | dNone
  | dNull
  | dStr (s : JStr)
  | dInt (n : Int)
  | dBool (b : Bool)
  | dFun (ret : JStr)
  | dArr (xs : List JStr)
  deriving DecidableEq

/-- A column value transformer (outbound `to` database, inbound `from`
database). -/
structure ValueTransformer where
  toDb : Value → Value
  fromDb : Value → Value

/-- An index of the owning entity, as far as `normalizeIsUnique` reads it:
its uniqueness flag and its member columns. The source compares
`idx.columns[0] === column` by object identity; within one entity, column
objects are in bijection with their database names, which is how we model
identity. -/
structure IndexMeta where
  isUnique : Bool
  columnNames : List JStr

/-- Desired column state (`ColumnMetadata`), restricted to the fields this
driver reads. -/
structure ColumnMeta where
  databaseName : JStr
  propertyName : JStr
  type : ColType
  length : JStr
  width : Option Nat
  precision : JsOpt Nat
  scale : Option Nat
  zerofill : Bool
  unsigned : Bool
  asExpression : Option JStr
  generatedType : Option JStr
  comment : Option JStr
  default : DefaultVal
  enum : Option (List Value)
  onUpdate : Option JStr
  isPrimary : Bool
  isNullable : Bool
  isGenerated : Bool
  generationStrategy : Option GenStrategy
  transformer : Option ValueTransformer
  indices : List IndexMeta

/-! ## DateUtils and JSON (external to src/)

`DateUtils` and the platform `JSON` object are not part of the provided
sources; they are modelled from the spec (§4.4): date-only values marshal
to date strings, time-only values to time strings, datetime values to
normalized temporal values, json / simple-json values to serialized text
and back, simple-array / set values to comma-delimited strings and back. -/

/-- Modelled from the spec: rendering of a `Date` object as a date string.
The concrete calendar rendering is immaterial to every claim (it is never
compared against anything); only the string shape matters. -/
def dateStringOf (ms : Int) : JStr := ("date:").toList ++ intToChars ms

/-- Modelled from the spec: rendering of a `Date` object as a time string. -/
def timeStringOf (ms : Int) : JStr := ("time:").toList ++ intToChars ms

/-- Modelled from the spec: `DateUtils.mixedDateToDateString` renders a
`Date` as a date string and keeps an already-string value unchanged. -/
def mixedDateToDateString : Value → Value
  | .vDate ms => .vStr (dateStringOf ms)
  | v => v

/-- Modelled from the spec: `DateUtils.mixedDateToTimeString` renders a
`Date` as a time string and keeps an already-string value unchanged. -/
def mixedDateToTimeString : Value → Value
  | .vDate ms => .vStr (timeStringOf ms)
  | v => v

/-- Modelled from the spec: `DateUtils.mixedTimeToString` (hydration side of
time columns) renders a `Date` as a time string and keeps strings unchanged. -/
def mixedTimeToString : Value → Value
  | .vDate ms => .vStr (timeStringOf ms)
  | v => v

/-- Modelled from the spec: `DateUtils.mixedDateToDate` normalizes a
temporal value; a `Date` object is already normal and is kept, other
shapes pass through (string-to-Date conversion is not exercised by any
claim). -/
def mixedDateToDate : Value → Value
  | v => v

/-- Modelled from the spec: `DateUtils.normalizeHydratedDate` normalizes the
wire value of a datetime column. We keep the value unchanged so that the
UTC-marker handling of `prepareHydratedValue` stays observable; the claims
about datetime hydration are about that marker, not about calendar
arithmetic. -/
def normalizeHydratedDate : Value → Value
  | v => v

/-- Modelled from the spec: `DateUtils.simpleArrayToString` joins an array
with commas (coercing the entries to strings) and returns any non-array
unchanged. -/
def simpleArrayToString : Value → Value
  | .vArr xs => .vStr (List.intercalate [','] (xs.map toStrV))
  | v => v

/-- Modelled from the spec: `DateUtils.stringToSimpleArray` splits a string
on commas; non-strings pass through. -/
def stringToSimpleArray : Value → Value
  | .vStr s => .vArr ((s.splitOn ',').map (fun t => .vStr t))
  | v => v

/-- Escapes double quotes and backslashes inside a JSON string literal. -/
def jsonEscape (s : JStr) : JStr :=
  s.flatMap (fun c => if c = dquote ∨ c = bslash then [bslash, c] else [c])

/-- Inverse of `jsonEscape`: drops one backslash before an escaped char. -/
def jsonUnescape : JStr → JStr
  | [] => []
  | c :: rest =>
      if c = bslash then
        match rest with
        | [] => []
        | d :: rest2 => d :: jsonUnescape rest2
      else c :: jsonUnescape rest

/-- Modelled from the spec: platform `JSON.stringify` on the value shapes
the marshaller serializes. Arrays, buffers and functions get placeholder
output; they are not among the shapes any theorem exercises. -/
def jsonStringify : Value → JStr
  | .vNull => ("null").toList
  | .vUndef => ("null").toList
  | .vNaN => ("null").toList
  | .vBool true => ("true").toList
  | .vBool false => ("false").toList
  | .vInt n => intToChars n
  | .vStr s => dquote :: (jsonEscape s ++ [dquote])
  | .vDate ms => dquote :: (dateStringOf ms ++ [dquote])
  | .vArr _ => ("[]").toList
  | .vBuf _ => ("null").toList
  | .vFunc _ => ("null").toList

/-- Strict JSON number parse: optional minus sign then digits. -/
def jsonNumParse (cs : JStr) : Option Int :=
  match cs with
  | [] => none
  | c :: rest =>
      if c = minusChar then
        if !rest.isEmpty && rest.all Char.isDigit then some (-(charsToNat rest : Int)) else none
      else if cs.all Char.isDigit then some (charsToNat cs) else none

/-- Modelled from the spec: platform `JSON.parse` on the scalar fragment of
JSON (string, integer, boolean, null). Malformed input, on which the real
`JSON.parse` throws, yields `vUndef`; no theorem reaches that case. -/
def jsonParse (s : JStr) : Value :=
  match s with
  | [] => .vUndef
  | c :: _ =>
      if c = dquote then
        if s.getLast? = some dquote ∧ 2 ≤ s.length then
          .vStr (jsonUnescape ((s.drop 1).dropLast))
        else .vUndef
      else
        match jsonNumParse s with
        | some n => .vInt n
        | none =>
            let other := Value.vUndef
            if s = ("null").toList then .vNull
            else if s = ("true").toList then .vBool true
            else if s = ("false").toList then .vBool false
            else other

/-- Modelled from the spec: `DateUtils.simpleJsonToString` is JSON
serialization. -/
def simpleJsonToString (v : Value) : Value := .vStr (jsonStringify v)

/-- Modelled from the spec: `DateUtils.stringToSimpleJson` parses serialized
JSON text; non-strings pass through. -/
def stringToSimpleJson : Value → Value
  | .vStr s => jsonParse s
  | v => v

/-- Live column state (`TableColumn`) as reported by introspection. -/
structure TableColumn where
  name : JStr
  type : JStr
  length : JStr
  width : Option Nat
  precision : JsOpt Nat
  scale : Option Nat
  zerofill : Bool
  unsigned : Bool
  asExpression : Option JStr
  generatedType : Option JStr
  comment : Option JStr
  default : Option JStr
  enum : Option (List JStr)
  onUpdate : Option JStr
  isPrimary : Bool
  isNullable : Bool
  isUnique : Bool
  isGenerated : Bool
  deriving DecidableEq

/-! ## PlanetScaleDriver: value marshalling (src/unnamed/part_001 495-604) -/

/-- Dispatch of `numberFromBitString` on the dynamic type of the wire value
(Buffer branch, string branch, and the warn-and-return-0 fallback). String
characters enter through `charCodeAt`. -/
def numberFromBitStringV : Value → Value
  | .vBuf bytes => .vInt (numberFromBitStringBuf bytes)
  | .vStr s => .vInt (numberFromBitStringStr (s.map Char.toNat))
  | _ => .vInt 0

/-- Type-dispatch core of `preparePersistentValue` (after transformer and
null handling). -/
def persistDispatch (v : Value) (col : ColumnMeta) : Value :=
  if col.type = .jsBoolean then
    match v with
    | .vBool true => .vInt 1
    | _ => .vInt 0
  else if col.type = ctn "date" then mixedDateToDateString v
  else if col.type = ctn "time" then mixedDateToTimeString v
  else if col.type = ctn "json" then .vStr (jsonStringify v)
  else if col.type = ctn "timestamp" ∨ col.type = ctn "datetime" ∨ col.type = .jsDate then
    mixedDateToDate v
  else if col.type = ctn "simple-array" then simpleArrayToString v
  else if col.type = ctn "simple-json" then simpleJsonToString v
  else if col.type = ctn "enum" ∨ col.type = ctn "simple-enum" then .vStr (toStrV v)
  else if col.type = ctn "set" then simpleArrayToString v
  else if col.type = .jsNumber then
    match numCoerce v with
    | some _ => parseIntV v
    | none => v
  else v

/-- Embeds `preparePersistentValue`: outbound transformer first, then null
and undefined pass through, then the type dispatch. -/
def preparePersistentValue (value : Value) (col : ColumnMeta) : Value :=
  let value :=
    match col.transformer with
    | some tr => tr.toDb value
    | none => value
  match value with
  | .vNull => .vNull
  | .vUndef => .vUndef
  | v => persistDispatch v col

/-- Guard of the enum branch of `prepareHydratedValue`:
`columnMetadata.enum && !isNaN(value) && columnMetadata.enum.indexOf(parseInt(value)) >= 0`
(an `indexOf` of at least 0 is membership under strict equality). -/
def enumHydrateGuard (col : ColumnMeta) (v : Value) : Bool :=
  match col.enum with
  | some es => (numCoerce v).isSome && es.any (fun e => jsStrictEq e (parseIntV v))
  | none => false

/-- Type-dispatch core of `prepareHydratedValue` (for non-null wire values,
before the inbound transformer). -/
def hydrateDispatch (v : Value) (col : ColumnMeta) : Value :=
  if col.type = .jsBoolean ∨ col.type = ctn "bool" ∨ col.type = ctn "boolean" then
    .vBool (truthy v)
  else if col.type = ctn "datetime" ∨ col.type = .jsDate then
    normalizeHydratedDate
      (match v with
       | .vStr s => .vStr (s ++ ['Z'])
       | w => w)
  else if col.type = ctn "date" then mixedDateToDateString v
  else if col.type = ctn "json" then
    match v with
    | .vStr s => jsonParse s
    | w => w
  else if col.type = ctn "time" then mixedTimeToString v
  else if col.type = ctn "simple-array" then stringToSimpleArray v
  else if col.type = ctn "simple-json" then stringToSimpleJson v
  else if (col.type = ctn "enum" ∨ col.type = ctn "simple-enum") ∧ enumHydrateGuard col v then
    parseIntV v
  else if col.type = ctn "set" then stringToSimpleArray v
  else if col.type = .jsNumber then
    match numCoerce v with
    | some _ => parseIntV v
    | none => v
  else if col.type = ctn "bit" then numberFromBitStringV v
  else v

/-- Embeds `prepareHydratedValue`: null and undefined short-circuit through
the inbound transformer; otherwise type dispatch, then the inbound
transformer. -/
def prepareHydratedValue (value : Value) (col : ColumnMeta) : Value :=
  match value with
  | .vNull =>
      match col.transformer with
      | some tr => tr.fromDb .vNull
      | none => .vNull
  | .vUndef =>
      match col.transformer with
      | some tr => tr.fromDb .vUndef
      | none => .vUndef
  | v =>
      let v := hydrateDispatch v col
      match col.transformer with
      | some tr => tr.fromDb v
      | none => v

/-! ## PlanetScaleDriver: schema normalization (part_001 609-766, 1016-1075) -/

/-- Embeds `normalizeType`. -/
def normalizeType (col : ColumnMeta) : JStr :=
  if col.type = .jsNumber ∨ col.type = ctn "integer" then ("int").toList
  else if col.type = .jsString then ("varchar").toList
  else if col.type = .jsDate then ("datetime").toList
  else if col.type = .jsBuffer then ("blob").toList
  else if col.type = .jsBoolean then ("tinyint").toList
  else if col.type = ctn "uuid" then ("varchar").toList
  else if col.type = ctn "simple-array" ∨ col.type = ctn "simple-json" then ("text").toList
  else if col.type = ctn "simple-enum" then ("enum").toList
  else if col.type = ctn "double precision" ∨ col.type = ctn "real" then ("double").toList
  else if col.type = ctn "dec" ∨ col.type = ctn "numeric" ∨ col.type = ctn "fixed" then
    ("decimal").toList
  else if col.type = ctn "bool" ∨ col.type = ctn "boolean" then ("tinyint").toList
  else if col.type = ctn "nvarchar" ∨ col.type = ctn "national varchar" then ("varchar").toList
  else if col.type = ctn "nchar" ∨ col.type = ctn "national char" then ("char").toList
  else
    match col.type with
    | .named s => s
    | _ => []

/-- Embeds `getColumnLength` (the explicit length is modelled as a string,
empty when unset, so JS truthiness of `column.length` is non-emptiness). -/
def getColumnLength (col : ColumnMeta) : JStr :=
  if col.length ≠ [] then col.length
  else if col.generationStrategy = some .uuid then ("36").toList
  else if col.type = .jsString ∨ col.type = ctn "varchar" ∨ col.type = ctn "nvarchar" ∨
      col.type = ctn "national varchar" then ("255").toList
  else if col.type = ctn "varbinary" then ("255").toList
  else []

/-- String rendering of a default value when interpolated into a template
literal. -/
def toStrD : DefaultVal → JStr
  | .dNone => ("undefined").toList
  | .dNull => ("null").toList
  | .dStr s => s
  | .dInt n => intToChars n
  | .dBool true => ("true").toList
  | .dBool false => ("false").toList
  | .dFun _ => ("function").toList
  | .dArr xs => List.intercalate [','] xs

/-- Comma-join of an array default (`DateUtils.simpleArrayToString` applied
to a default value); non-arrays render as for template interpolation. -/
def setJoinD : DefaultVal → JStr
  | .dArr xs => List.intercalate [','] xs
  | .dStr s => s
  | d => toStrD d

/-- True when the default is a string. -/
def isStrD : DefaultVal → Bool
  | .dStr _ => true
  | _ => false

/-- True when the default is undefined. -/
def isNoneD : DefaultVal → Bool
  | .dNone => true
  | _ => false

/-- JS `Number.prototype.toFixed` on an integer with `scale` digits
(`toFixed(undefined)` is `toFixed(0)`). -/
def toFixedChars (n : Int) (scale : Option Nat) : JStr :=
  let k := scale.getD 0
  intToChars n ++ (if k = 0 then [] else '.' :: List.replicate k '0')

/-- Scans for the first occurrence of the needle (JS `indexOf(...) !== -1`). -/
def containsSub : JStr → JStr → Bool
  | [], needle => needle.isEmpty
  | c :: t, needle => needle.isPrefixOf (c :: t) || containsSub t needle

/-- First match of the pattern "open paren, one or more digits, close
paren" anywhere in the string (`value.match(...)[0]` of the precision
regex), with the regex's backtracking semantics. -/
def findPrecision : JStr → Option JStr
  | [] => none
  | c :: rest =>
      if c = '(' then
        let ds := rest.takeWhile Char.isDigit
        if !ds.isEmpty ∧ (rest.drop ds.length).head? = some ')' then
          some ('(' :: (ds ++ [')']))
        else findPrecision rest
      else findPrecision rest

/-- Embeds `normalizeDatetimeFunction`. -/
def normalizeDatetimeFunction (value : Option JStr) : Option JStr :=
  match value with
  | none => none
  | some s =>
      if s.isEmpty then some s
      else
        let u := s.map Char.toUpper
        if containsSub u ("CURRENT_TIMESTAMP").toList || containsSub u ("NOW").toList then
          match findPrecision s with
          | some p => some (("CURRENT_TIMESTAMP").toList ++ p)
          | none => some ("CURRENT_TIMESTAMP").toList
        else some s

/-- Embeds `normalizeDefault`. -/
def normalizeDefault (col : ColumnMeta) : Option JStr :=
  match col.default with
  | .dNull => none
  | d =>
      if (col.type = ctn "enum" ∨ col.type = ctn "simple-enum" ∨ isStrD d = true) ∧
          isNoneD d = false then
        some (squote :: (toStrD d ++ [squote]))
      else if col.type = ctn "set" ∧ isNoneD d = false then
        some (squote :: (setJoinD d ++ [squote]))
      else
        match d with
        | .dInt n => some (squote :: (toFixedChars n col.scale ++ [squote]))
        | .dBool true => some ['1']
        | .dBool false => some ['0']
        | .dFun ret => normalizeDatetimeFunction (some ret)
        | .dNone => none
        | d' => some (toStrD d')

/-- Embeds `normalizeIsUnique`: some single-column unique index of the
owning entity names exactly this column. -/
def normalizeIsUnique (col : ColumnMeta) : Bool :=
  col.indices.any (fun idx =>
    idx.isUnique && idx.columnNames.length == 1 && idx.columnNames.headD [] == col.databaseName)

/-- Embeds `escapeComment`: a falsy comment is returned as is, otherwise
null bytes are stripped. -/
def escapeComment (comment : Option JStr) : Option JStr :=
  match comment with
  | none => none
  | some s => if s.isEmpty then some s else some (s.filter (fun ch => ch ≠ Char.ofNat 0))

/-- True on the single-quote character. -/
def isSquote (c : Char) : Bool := c == squote

/-- Strips the leading run and the trailing run of single quotes (the
replacement of the quote-trimming regex by the empty string). -/
def stripQuotes (s : JStr) : JStr :=
  ((s.dropWhile isSquote).reverse.dropWhile isSquote).reverse

/-- Embeds `compareDefaultValues`: when both sides are strings, quote runs
are trimmed from both before comparing; otherwise plain strict equality. -/
def compareDefaultValues (columnMetadataValue databaseValue : Option JStr) : Bool :=
  match columnMetadataValue, databaseValue with
  | some a, some b => stripQuotes a == stripQuotes b
  | a, b => a == b

/-- Embeds `compareNullableValues`. -/
def compareNullableValues (col : ColumnMeta) (tableColumn : TableColumn) : Bool :=
  col.isNullable == tableColumn.isNullable

/-- Modelled from the spec: `OrmUtils.isArraysEqual` compares the enum value
lists as sets (same length and every entry of the first contained in the
second). `OrmUtils` is not among the provided sources. -/
def isArraysEqual (a b : List JStr) : Bool :=
  a.length == b.length && a.all (fun x => b.contains x)

/-- The changed-column predicate of `findChangedColumns` (the big disjunction
computed for a desired column and its live counterpart). -/
def isColumnChanged (tableColumn : TableColumn) (c : ColumnMeta) : Bool :=
  tableColumn.name != c.databaseName ||
  tableColumn.type != normalizeType c ||
  tableColumn.length != getColumnLength c ||
  tableColumn.width != c.width ||
  (!(c.precision == JsOpt.undef) && tableColumn.precision != c.precision) ||
  (!(c.scale == none) && tableColumn.scale != c.scale) ||
  tableColumn.zerofill != c.zerofill ||
  tableColumn.unsigned != c.unsigned ||
  tableColumn.asExpression != c.asExpression ||
  tableColumn.generatedType != c.generatedType ||
  tableColumn.comment != escapeComment c.comment ||
  !compareDefaultValues (normalizeDefault c) tableColumn.default ||
  (match tableColumn.enum, c.enum with
   | some te, some ce => !isArraysEqual te (ce.map toStrV)
   | _, _ => false) ||
  tableColumn.onUpdate != normalizeDatetimeFunction c.onUpdate ||
  tableColumn.isPrimary != c.isPrimary ||
  !compareNullableValues c tableColumn ||
  tableColumn.isUnique != normalizeIsUnique c ||
  (!(c.generationStrategy == some GenStrategy.uuid) && tableColumn.isGenerated != c.isGenerated)

/-- Embeds `findChangedColumns`: keeps the desired columns whose live
counterpart (first live column with matching name) reports a change. -/
def findChangedColumns (tableColumns : List TableColumn) (columnMetadatas : List ColumnMeta) :
    List ColumnMeta :=
  columnMetadatas.filter (fun c =>
    match tableColumns.find? (fun tc => tc.name == c.databaseName) with
    | none => false
    | some tc => isColumnChanged tc c)

/-! ## PlanetScaleDriver: parseTableName, string-target branch (part_001 482-489) -/

/-- Result shape of `parseTableName`. -/
structure ParsedTableName where
  database : Option JStr
  schema : Option JStr
  tableName : JStr
  deriving DecidableEq

/-- Embeds the plain-string arm of `parseTableName`: split the target on
dots; with more than one part the head is the database (falling back, via
JS `||`, to the driver's ambient database when the head is the empty
string) and the second part is the table name; schema is always undefined
in this dialect. -/
def parseTableNameOfString (driverDatabase : Option JStr) (target : JStr) : ParsedTableName :=
  let parts := target.splitOn '.'
  let first : Option JStr := if 1 < parts.length then some (parts.headD []) else none
  { database :=
      match first with
      | some s => if s.isEmpty then driverDatabase else some s
      | none => driverDatabase
    schema := none
    tableName := if 1 < parts.length then (parts.get? 1).getD [] else parts.headD [] }

/-! ## PlanetScaleDriver: escapeQueryWithParameters (part_001 371-412) -/

/-- Character class of the parameter-name regex, `[A-Za-z0-9_.]`. -/
def nameChar (c : Char) : Bool :=
  if ('A' ≤ c ∧ c ≤ 'Z') ∨ ('a' ≤ c ∧ c ≤ 'z') ∨ ('0' ≤ c ∧ c ≤ '9') ∨ c = '_' ∨ c = '.' then
    true
  else false

/-- Lookup of a named parameter (`parameters.hasOwnProperty(key)` plus read). -/
def lookupParam (key : JStr) (params : List (JStr × Value)) : Option Value :=
  (params.find? (fun p => p.1 == key)).map (fun p => p.2)

/-- One positional marker per array element, joined by a comma and a space
(`createParameter` always yields the fixed marker). -/
def spreadMarkers (n : Nat) : JStr :=
  List.intercalate (", ").toList (List.replicate n ['?'])

/-- The global replace of the placeholder regex, scanning the SQL left to
right. The fuel argument (always at least the remaining length plus one)
makes the recursion structural. At a colon the engine first tries the
spread group (three dots then at least one name char); failing that, a
plain name (note that dots are name characters, so ":..." alone matches as
a plain token named "..."); an unbound name leaves the whole token
unchanged; a bound array value spreads into markers pushing its elements; a
bound function value splices its result without pushing; any other bound
value pushes itself and yields one marker. A spread token bound to a
non-array would throw in JS (`value.map` is absent); that corner, which no
theorem exercises, is modelled as an empty spread. -/
def replaceLoop (params : List (JStr × Value)) :
    Nat → List Char → List Value → (JStr × List Value)
  | 0, cs, vals => (cs, vals)
  | _ + 1, [], vals => ([], vals)
  | fuel + 1, c :: rest, vals =>
      if c = ':' then
        if rest.take 3 = ['.', '.', '.'] ∧ ((rest.drop 3).takeWhile nameChar) ≠ [] then
          let key := (rest.drop 3).takeWhile nameChar
          let after := (rest.drop 3).drop key.length
          match lookupParam key params with
          | none =>
              let r := replaceLoop params fuel after vals
              (':' :: '.' :: '.' :: '.' :: (key ++ r.1), r.2)
          | some (.vArr xs) =>
              let r := replaceLoop params fuel after (vals ++ xs)
              (spreadMarkers xs.length ++ r.1, r.2)
          | some _ =>
              let r := replaceLoop params fuel after vals
              (r.1, r.2)
        else
          let key := rest.takeWhile nameChar
          if key = [] then
            let r := replaceLoop params fuel rest vals
            (':' :: r.1, r.2)
          else
            let after := rest.drop key.length
            match lookupParam key params with
            | none =>
                let r := replaceLoop params fuel after vals
                (':' :: (key ++ r.1), r.2)
            | some (.vFunc ret) =>
                let r := replaceLoop params fuel after vals
                (ret ++ r.1, r.2)
            | some v =>
                let r := replaceLoop params fuel after (vals ++ [v])
                ('?' :: r.1, r.2)
      else
        let r := replaceLoop params fuel rest vals
        (c :: r.1, r.2)

/-- Embeds `escapeQueryWithParameters`: native parameter values seed the
output list in key order; an empty named-parameter map returns the SQL
unchanged; otherwise the placeholder regex is replaced globally. -/
def escapeQueryWithParameters (sql : JStr) (parameters nativeParameters : List (JStr × Value)) :
    JStr × List Value :=
  let escapedParameters := nativeParameters.map (fun p => p.2)
  if parameters.isEmpty then (sql, escapedParameters)
  else replaceLoop parameters (sql.length + 1) sql escapedParameters

/-! ## PlanetScaleDriver: createGeneratedMap (part_001 793-841) -/

/-- Entity metadata as far as `createGeneratedMap` reads it. -/
structure EntityMeta where
  columns : List ColumnMeta
  generatedColumns : List ColumnMeta

/-- Raw insert result of the underlying client: an auto-increment id
(absent when the driver returned a column map instead) and the returned
column fields. -/
structure InsertResult where
  insertId : Option Int
  fields : List (JStr × Value)

/-- A generated map: property name to generated value. -/
abbrev GenMap := List (JStr × Value)

/-- Sets a key in a generated map, overwriting an existing binding. -/
def setKey (m : GenMap) (k : JStr) (v : Value) : GenMap :=
  if m.any (fun p => p.1 == k) then
    m.map (fun p => if p.1 == k then (k, v) else p)
  else m ++ [(k, v)]

/-- Modelled from the spec: `OrmUtils.mergeDeep` merges the contribution
map into the accumulator (deep merging of embedded paths is not needed for
flat property maps). `OrmUtils` is not among the provided sources. -/
def mergeDeep (m contrib : GenMap) : GenMap :=
  contrib.foldl (fun acc p => setKey acc p.1 p.2) m

/-- Modelled from the spec: `ColumnMetadata.createValueMap` builds the
single-binding contribution of a column; per §4.7 a column for which this
path produced no value ("columns generated by non-increment strategies are
not populated by this path") contributes nothing. `ColumnMetadata` is not
among the provided sources. -/
def createValueMap (col : ColumnMeta) (v : Option Value) : GenMap :=
  match v with
  | none => []
  | some x => [(col.propertyName, x)]

/-- Embeds `EntityMetadata.findColumnWithDatabaseName`. -/
def findColumnWithDatabaseName (metadata : EntityMeta) (key : JStr) : Option ColumnMeta :=
  metadata.columns.find? (fun c => c.databaseName == key)

/-- Embeds `createGeneratedMap`. An absent insert result yields absent.
When the insert result has no `insertId`, it is treated as a column map and
each key matching a known column merges that column's value. Otherwise
every generated column with the increment strategy receives
`parseInt(insertId) + entityIndex` provided `insertId` is truthy, and the
result is absent when the merged map stayed empty. `insertId` is modelled
as the integer the driver reports (so `parseInt` is the identity and
truthiness is being nonzero). -/
def createGeneratedMap (metadata : EntityMeta) (insertResult : Option InsertResult)
    (entityIndex : Int) : Option GenMap :=
  match insertResult with
  | none => none
  | some res =>
      match res.insertId with
      | none =>
          some (res.fields.foldl (fun map kv =>
            match findColumnWithDatabaseName metadata kv.1 with
            | some column => mergeDeep map (createValueMap column (some kv.2))
            | none => map) [])
      | some insertId =>
          let generatedMap := metadata.generatedColumns.foldl (fun map generatedColumn =>
            let value : Option Value :=
              if generatedColumn.generationStrategy = some .increment ∧ insertId ≠ 0 then
                some (.vInt (insertId + entityIndex))
              else none
            mergeDeep map (createValueMap generatedColumn value)) []
          if 0 < generatedMap.length then some generatedMap else none

/-! ## Representable application values (claim C1)

The round-trip law quantifies over the application values representable at
a column's declared type. The predicate below fixes that notion per type
family: null and undefined are representable everywhere; booleans at the
boolean family; integer numbers at numeric columns; strings at date/time
columns (their application type is the already-formatted string); `Date`
objects at datetime/timestamp columns; JSON scalars at json columns;
members of a homogeneous declared domain at enum columns (a numeric enum
of integers, or a string enum of non-numeric strings — a domain mixing a
number with its own decimal rendering is not faithfully representable);
non-empty arrays of comma-free strings at set/simple-array columns (the
comma is the wire delimiter and the empty array is indistinguishable on
the wire from the singleton empty string); integers at bit columns; and
anything at the pass-through types. -/

/-- True for integer number values. -/
def isIntV : Value → Bool
  | .vInt _ => true
  | _ => false

/-- True for string values. -/
def isStrV : Value → Bool
  | .vStr _ => true
  | _ => false

/-- True for boolean values. -/
def isBoolV : Value → Bool
  | .vBool _ => true
  | _ => false

/-- True for Date values. -/
def isDateV : Value → Bool
  | .vDate _ => true
  | _ => false

/-- True for a comma-free string value (a legal member of a delimited
array). -/
def cleanSetElem : Value → Bool
  | .vStr s => !(s.contains ',')
  | _ => false

/-- A homogeneous enum domain: all integers, or all non-numeric strings. -/
def enumDomainOK (es : List Value) : Bool :=
  es.all isIntV ||
  es.all (fun e =>
    match e with
    | .vStr s => (jsStrToNum s).isNone
    | _ => false)

/-- Representability of a non-null application value at a column's declared
type, dispatching on the type. -/
def typeRepresentable (col : ColumnMeta) (v : Value) : Bool :=
  match col.type with
  | .jsBoolean => isBoolV v
  | .jsNumber => isIntV v
  | .jsDate => isDateV v
  | .jsString => true
  | .jsBuffer => true
  | .named s =>
      if s = ("bool").toList ∨ s = ("boolean").toList then isBoolV v
      else if s = ("datetime").toList ∨ s = ("timestamp").toList then isDateV v
      else if s = ("date").toList ∨ s = ("time").toList then isStrV v
      else if s = ("json").toList ∨ s = ("simple-json").toList then
        isBoolV v || isIntV v || isStrV v
      else if s = ("enum").toList ∨ s = ("simple-enum").toList then
        match col.enum with
        | none => isStrV v
        | some es => enumDomainOK es && es.any (fun e => jsStrictEq e v)
      else if s = ("set").toList ∨ s = ("simple-array").toList then
        match v with
        | .vArr xs => !xs.isEmpty && xs.all cleanSetElem
        | _ => false
      else if s = ("bit").toList then isIntV v
      else true

/-- Representability of an application value at a column's declared type:
null and undefined everywhere, other values per type family. -/
def representable (col : ColumnMeta) (v : Value) : Bool :=
  match v with
  | .vNull => true
  | .vUndef => true
  | _ => typeRepresentable col v

/-- The column types `preparePersistentValue` dispatches on via a
string-named type. -/
def persistNames : List JStr :=
  [("date").toList, ("time").toList, ("json").toList, ("timestamp").toList,
   ("datetime").toList, ("simple-array").toList, ("simple-json").toList, ("enum").toList,
   ("simple-enum").toList, ("set").toList]

/-- The column types `prepareHydratedValue` dispatches on via a
string-named type. -/
def hydrateNames : List JStr :=
  [("bool").toList, ("boolean").toList, ("datetime").toList, ("date").toList,
   ("json").toList, ("time").toList, ("simple-array").toList, ("simple-json").toList,
   ("enum").toList, ("simple-enum").toList, ("set").toList, ("bit").toList]

/-! ## Live counterpart of a desired column (claim C2) -/

/-- The live column that agrees with a desired column in every field
`findChangedColumns` compares: the name is the database name, the live
type/length/default/comment/onUpdate/enum are the normalized desired
values, and the remaining flags are copied. -/
def liveCounterpart (c : ColumnMeta) : TableColumn :=
  { name := c.databaseName
    type := normalizeType c
    length := getColumnLength c
    width := c.width
    precision := c.precision
    scale := c.scale
    zerofill := c.zerofill
    unsigned := c.unsigned
    asExpression := c.asExpression
    generatedType := c.generatedType
    comment := escapeComment c.comment
    default := normalizeDefault c
    enum := c.enum.map (fun es => es.map toStrV)
    onUpdate := normalizeDatetimeFunction c.onUpdate
    isPrimary := c.isPrimary
    isNullable := c.isNullable
    isUnique := normalizeIsUnique c
    isGenerated := c.isGenerated }

/-- A desired column with only its declared length replaced. -/
def withLength (c : ColumnMeta) (l : JStr) : ColumnMeta :=
  { c with length := l }

/-! ## Concrete columns and metadata used by witnesses and counterexamples -/

/-- A neutral desired column. -/
def baseCol : ColumnMeta :=
  { databaseName := ("c").toList
    propertyName := ("c").toList
    type := ctn "int"
    length := []
    width := none
    precision := JsOpt.undef
    scale := none
    zerofill := false
    unsigned := false
    asExpression := none
    generatedType := none
    comment := none
    default := .dNone
    enum := none
    onUpdate := none
    isPrimary := false
    isNullable := false
    isGenerated := false
    generationStrategy := none
    transformer := none
    indices := [] }

/-- A bit column of width 32, as in the repository's bit-field test entity. -/
def bitCol : ColumnMeta :=
  { baseCol with type := ctn "bit", precision := JsOpt.val 32 }

/-- A datetime column. -/
def dtCol : ColumnMeta :=
  { baseCol with type := ctn "datetime" }

/-- A length-less varchar column whose generation strategy is uuid but which
is not a primary key. -/
def uuidVarcharCol : ColumnMeta :=
  { baseCol with type := ctn "varchar", generationStrategy := some .uuid, isPrimary := false }

/-- A boolean column (JS `Boolean` constructor as declared type). -/
def boolCol : ColumnMeta :=
  { baseCol with type := ColType.jsBoolean }

/-- An increment-generated primary column named id. -/
def idCol : ColumnMeta :=
  { baseCol with
      databaseName := ("id").toList
      propertyName := ("id").toList
      isPrimary := true
      isGenerated := true
      generationStrategy := some .increment }

/-- A uuid-generated column. -/
def uuidGenCol : ColumnMeta :=
  { baseCol with
      databaseName := ("u").toList
      propertyName := ("u").toList
      isGenerated := true
      generationStrategy := some .uuid }

/-- Entity metadata with a single increment-generated id column. -/
def metaIncrement : EntityMeta :=
  { columns := [idCol], generatedColumns := [idCol] }

/-- Entity metadata whose only generated column is uuid-generated. -/
def metaUuidOnly : EntityMeta :=
  { columns := [uuidGenCol], generatedColumns := [uuidGenCol] }

/-- Contribution of one generated column on the increment path: its
property bound to `insertId + entityIndex` when its strategy is increment,
nothing otherwise. -/
def fInc (rid idx : Int) (gcol : ColumnMeta) : Option (JStr × Value) :=
  if gcol.generationStrategy = some GenStrategy.increment then
    some (gcol.propertyName, Value.vInt (rid + idx))
  else none

/-- The generated map the increment path of `createGeneratedMap` should
produce: one binding per increment-strategy generated column, valued
`insertId + entityIndex`, in column order. -/
def incList (meta : EntityMeta) (rid idx : Int) : GenMap :=
  meta.generatedColumns.filterMap (fInc rid idx)

/-! ## Helper lemmas -/

theorem bufLoop_eq_strLoop (v : Nat) (bytes codes : List Nat)
    (h : codes.map (· % 256) = bytes) : bufLoop v bytes = strLoop v codes := by
  induction codes generalizing v bytes with
  | nil => cases h; rfl
  | cons c cs ih =>
      cases h
      simp only [bufLoop, strLoop, List.length_map]
      exact ih _ _ rfl

/-! ## Claim C6 -/

/-- C6. Bit-field decode is independent of input representation: decoding a
byte sequence through the buffer branch and decoding a string whose
characters' low 8 bits are those bytes through the string branch agree; in
particular both the byte sequence FF FF FF FF and the equivalent
4-character string decode to 4294967295. -/
theorem numberFromBitString_representation_independent :
    (∀ (bytes codes : List Nat), codes.map (· % 256) = bytes →
      numberFromBitStringBuf bytes = numberFromBitStringStr codes) ∧
    numberFromBitStringBuf [255, 255, 255, 255] = 4294967295 ∧
    numberFromBitStringStr [255, 255, 255, 255] = 4294967295 := by
  refine ⟨fun bytes codes h => bufLoop_eq_strLoop 0 bytes codes h, ?_, ?_⟩ <;>
    set_option maxRecDepth 8000 in decide

/-- Witness for C6 at a concrete input with char codes above 255. -/
theorem numberFromBitString_representation_independent_witness :
    ([511, 426].map (· % 256) = [255, 170]) ∧
    numberFromBitStringBuf [255, 170] = numberFromBitStringStr [511, 426] :=
  ⟨by decide,
   numberFromBitString_representation_independent.1 [255, 170] [511, 426] (by decide)⟩

/-! ## Claim C5 -/

set_option maxRecDepth 10000

/-- C5 counterexample. Decoding the 8-byte all-ones sequence does not return
18446744073709551615: the accumulation happens in IEEE-754 doubles, and
the exact value 2^64 - 1 needs 64 significant bits, so the final additions
round to 2^64. -/
theorem numberFromBitString_allOnes8_cex :
    numberFromBitStringBuf (List.replicate 8 255) ≠ 18446744073709551615 := by
  decide

/-- C5 amended. Decoding the 8-byte all-ones sequence (buffer or equivalent
string branch) yields 18446744073709551616, the double nearest 2^64 - 1 —
a value far beyond any 24-bit or 32-bit wrap or truncation (in particular
above 16777215 and 4294967295), though one above the mathematically exact
2^64 - 1 because doubles carry only 53 significant bits. -/
theorem numberFromBitString_allOnes8 :
    numberFromBitStringBuf (List.replicate 8 255) = 18446744073709551616 ∧
    numberFromBitStringStr (List.replicate 8 255) = 18446744073709551616 ∧
    16777215 < numberFromBitStringBuf (List.replicate 8 255) ∧
    4294967295 < numberFromBitStringBuf (List.replicate 8 255) := by
  refine ⟨by decide, by decide, by decide, by decide⟩

/-! ## Claim C10 -/

/-- C10 counterexample. For a plain-string target with two dots whose first
segment is empty, the database is not the (empty) segment before the first
dot: the JS or-chain falls back to the driver's ambient database. -/
theorem parseTableName_multidot_cex :
    ((".b.c").toList.splitOn '.').headD [] = [] ∧
    (parseTableNameOfString (some ("db").toList) (".b.c").toList).database =
      some ("db").toList ∧
    (parseTableNameOfString (some ("db").toList) (".b.c").toList).database ≠
      some (((".b.c").toList.splitOn '.').headD []) := by
  refine ⟨by decide, by decide, by decide⟩

/-- C10 amended. For every plain-string target containing two or more dots
whose first segment is non-empty, `parseTableName` takes the segment before
the first dot as the database and the second segment as the table name,
silently discarding all remaining segments (the function is total, no
error); an empty first segment instead falls back to the ambient default
database. -/
theorem parseTableName_multidot (db : Option JStr) (t : JStr)
    (hlen : 3 ≤ (t.splitOn '.').length) (hne : (t.splitOn '.').headD [] ≠ []) :
    parseTableNameOfString db t =
      { database := some ((t.splitOn '.').headD [])
        schema := none
        tableName := ((t.splitOn '.').get? 1).getD [] } := by
  unfold parseTableNameOfString
  have h1 : 1 < (t.splitOn '.').length := by omega
  have h2 : ((t.splitOn '.').headD []).isEmpty = false := by
    cases hh : (t.splitOn '.').headD [] with
    | nil => exact absurd hh hne
    | cons a l => rfl
  simp only [if_pos h1, h2, Bool.false_eq_true, if_false]

/-- Witness for C10 at the concrete target of the claim. -/
theorem parseTableName_multidot_witness :
    3 ≤ (("a.b.c").toList.splitOn '.').length ∧
    parseTableNameOfString none ("a.b.c").toList =
      { database := some ("a").toList, schema := none, tableName := ("b").toList } := by
  refine ⟨by decide, ?_⟩
  rw [parseTableName_multidot none ("a.b.c").toList (by decide) (by decide)]
  decide

/-! ## Claim C7 -/

/-- C7 counterexample. A length-less varchar column that is uuid-generated
but not a primary key still gets length 36: the code tests only the
generation strategy, never `isPrimary`, while the claim would demand the
varchar family default 255 here. -/
theorem getColumnLength_uuid_nonPrimary_cex :
    uuidVarcharCol.isPrimary = false ∧
    uuidVarcharCol.length = [] ∧
    getColumnLength uuidVarcharCol = ("36").toList ∧
    getColumnLength uuidVarcharCol ≠ ("255").toList := by
  refine ⟨rfl, rfl, by decide, by decide⟩

/-- C7 amended. `getColumnLength` returns the explicit length when the
column declares one; otherwise exactly 36 whenever the generation strategy
is uuid, whether or not the column is a primary key; otherwise 255 for the
variable-length character/binary families (generic string marker, varchar,
nvarchar, national varchar, varbinary); otherwise the empty string. -/
theorem getColumnLength_spec (col : ColumnMeta) :
    (col.length ≠ [] → getColumnLength col = col.length) ∧
    (col.length = [] → col.generationStrategy = some GenStrategy.uuid →
      getColumnLength col = ("36").toList) ∧
    (col.length = [] → col.generationStrategy ≠ some GenStrategy.uuid →
      (col.type = ColType.jsString ∨ col.type = ctn "varchar" ∨ col.type = ctn "nvarchar" ∨
        col.type = ctn "national varchar" ∨ col.type = ctn "varbinary") →
      getColumnLength col = ("255").toList) ∧
    (col.length = [] → col.generationStrategy ≠ some GenStrategy.uuid →
      ¬(col.type = ColType.jsString ∨ col.type = ctn "varchar" ∨ col.type = ctn "nvarchar" ∨
        col.type = ctn "national varchar" ∨ col.type = ctn "varbinary") →
      getColumnLength col = []) := by
  unfold getColumnLength
  refine ⟨fun h => by rw [if_pos h], fun h1 h2 => by rw [if_neg (by simp [h1]), if_pos h2],
    fun h1 h2 h3 => ?_, fun h1 h2 h3 => ?_⟩
  · rw [if_neg (by simp [h1]), if_neg h2]
    by_cases h4 : col.type = ColType.jsString ∨ col.type = ctn "varchar" ∨
        col.type = ctn "nvarchar" ∨ col.type = ctn "national varchar"
    · rw [if_pos h4]
    · have h5 : col.type = ctn "varbinary" := by tauto
      rw [if_neg h4, if_pos h5]
  · rw [if_neg (by simp [h1]), if_neg h2, if_neg (by tauto), if_neg (by tauto)]

/-- Witness for C7 at a uuid-generated non-primary column. -/
theorem getColumnLength_spec_witness :
    uuidVarcharCol.length = [] ∧
    uuidVarcharCol.generationStrategy = some GenStrategy.uuid ∧
    getColumnLength uuidVarcharCol = ("36").toList :=
  ⟨rfl, rfl, (getColumnLength_spec uuidVarcharCol).2.1 rfl rfl⟩

/-! ## Claim C9 -/

theorem stripQuotes_wrap (x : JStr) :
    stripQuotes (squote :: (x ++ [squote])) = stripQuotes x := by
  unfold stripQuotes
  rw [List.dropWhile_cons, if_pos (by rfl)]
  induction x with
  | nil => rfl
  | cons c t ih =>
      by_cases hc : isSquote c = true
      · rw [List.cons_append, List.dropWhile_cons, List.dropWhile_cons, if_pos hc, if_pos hc]
        exact ih
      · rw [List.cons_append, List.dropWhile_cons, List.dropWhile_cons, if_neg hc, if_neg hc]
        rw [List.reverse_cons, List.reverse_cons, List.reverse_append]
        simp only [List.reverse_cons, List.reverse_nil, List.nil_append, List.singleton_append]
        rw [List.cons_append, List.dropWhile_cons, if_pos (by rfl)]

/-- C9. `compareDefaultValues` strips the outer layer of leading/trailing
quote characters from both sides before comparing two strings — so
comparing a value against its quote-wrapped form succeeds, and wrapping one
side in a further quote layer never changes the verdict — while an absent
side is compared by plain equality. -/
theorem compareDefaultValues_spec :
    compareDefaultValues (some (squote :: (("CURRENT").toList ++ [squote])))
      (some ("CURRENT").toList) = true ∧
    compareDefaultValues (some [squote, 'a', squote]) (some [squote, 'b', squote]) = false ∧
    (∀ a b : Option JStr, a = none ∨ b = none → compareDefaultValues a b = (a == b)) ∧
    (∀ x y : JStr,
      compareDefaultValues (some (squote :: (x ++ [squote]))) (some y) =
        compareDefaultValues (some x) (some y)) := by
  refine ⟨by decide, by decide, ?_, ?_⟩
  · intro a b h
    rcases h with rfl | rfl
    · cases b <;> rfl
    · cases a <;> rfl
  · intro x y
    show (stripQuotes (squote :: (x ++ [squote])) == stripQuotes y) =
      (stripQuotes x == stripQuotes y)
    rw [stripQuotes_wrap]

/-- Witness for C9 with an absent side. -/
theorem compareDefaultValues_spec_witness :
    ((none : Option JStr) = none ∨ (some ("x").toList : Option JStr) = none) ∧
    compareDefaultValues none (some ("x").toList) =
      ((none : Option JStr) == some ("x").toList) :=
  ⟨Or.inl rfl, compareDefaultValues_spec.2.2.1 none (some ("x").toList) (Or.inl rfl)⟩

/-! ## Claim C8 -/

/-- C8 counterexample. A datetime wire string that already ends in the UTC
marker is given a second one: the code appends unconditionally, while the
claim says an already-marked string is left alone. -/
theorem hydrate_datetime_double_marker_cex :
    (("2024-01-01T00:00:00Z").toList.getLast? = some 'Z') ∧
    prepareHydratedValue (.vStr ("2024-01-01T00:00:00Z").toList) dtCol =
      .vStr (("2024-01-01T00:00:00Z").toList ++ ['Z']) ∧
    ("2024-01-01T00:00:00Z").toList ++ ['Z'] ≠ ("2024-01-01T00:00:00Z").toList := by
  refine ⟨by decide, by rfl, by decide⟩

/-- C8 amended. Hydrating a datetime (or generic-date) column appends the
UTC marker to every string wire value unconditionally before
date-normalization — the driver is assumed to have stripped the marker —
so a string already carrying the marker receives a second one. -/
theorem hydrate_datetime_appends_marker (s : JStr) (col : ColumnMeta)
    (htype : col.type = ctn "datetime" ∨ col.type = ColType.jsDate)
    (ht : col.transformer = none) :
    prepareHydratedValue (.vStr s) col = .vStr (s ++ ['Z']) := by
  have hguard : ¬(col.type = ColType.jsBoolean ∨ col.type = ctn "bool" ∨
      col.type = ctn "boolean") := by
    rcases htype with h | h <;> rw [h] <;> decide
  have hdt : col.type = ctn "datetime" ∨ col.type = ColType.jsDate := htype
  simp only [prepareHydratedValue, hydrateDispatch, if_neg hguard, if_pos hdt, ht,
    normalizeHydratedDate]

/-- Witness for C8 at a concrete unmarked wire string. -/
theorem hydrate_datetime_appends_marker_witness :
    dtCol.transformer = none ∧
    prepareHydratedValue (.vStr ("2024-05-05T01:02:03").toList) dtCol =
      .vStr (("2024-05-05T01:02:03").toList ++ ['Z']) :=
  ⟨rfl, hydrate_datetime_appends_marker ("2024-05-05T01:02:03").toList dtCol (Or.inl rfl) rfl⟩

/-! ## Claim C3: helper lemmas -/

theorem genFold_eq (f : ColumnMeta → Option Value) :
    ∀ (cols : List ColumnMeta) (m : GenMap),
      (cols.map (fun c => c.propertyName)).Nodup →
      (∀ c ∈ cols, ∀ p ∈ m, p.1 ≠ c.propertyName) →
      cols.foldl (fun map col => mergeDeep map (createValueMap col (f col))) m =
        m ++ cols.filterMap (fun col => (f col).map (fun v => (col.propertyName, v))) := by
  intro cols
  induction cols with
  | nil => intro m _ _; simp
  | cons c rest ih =>
      intro m hnd hfresh
      obtain ⟨hnd1, hnd2⟩ : (∀ x ∈ rest, ¬x.propertyName = c.propertyName) ∧
          (rest.map (fun x => x.propertyName)).Nodup := by simpa using hnd
      simp only [List.foldl_cons, List.filterMap_cons]
      cases hf : f c with
      | none =>
          rw [show mergeDeep m (createValueMap c none) = m from rfl]
          rw [ih m hnd2 (fun c' hc' p hp => hfresh c' (List.mem_cons_of_mem _ hc') p hp)]
          simp
      | some v =>
          have hany : m.any (fun p => p.1 == c.propertyName) = false := by
            rw [List.any_eq_false]
            intro p hp
            simp only [beq_iff_eq]
            exact hfresh c (List.mem_cons_self _ _) p hp
          have hset : mergeDeep m (createValueMap c (some v)) = m ++ [(c.propertyName, v)] := by
            show setKey m c.propertyName v = m ++ [(c.propertyName, v)]
            unfold setKey
            rw [hany]
            rfl
          rw [hset, ih (m ++ [(c.propertyName, v)]) hnd2 ?fresh]
          · simp
          case fresh =>
            intro c' hc' p hp
            rcases List.mem_append.mp hp with hp | hp
            · exact hfresh c' (List.mem_cons_of_mem _ hc') p hp
            · have hpv : p = (c.propertyName, v) := by simpa using hp
              subst hpv
              exact fun h => hnd1 c' hc' h.symm

theorem lookup_fInc_notMem (rid idx : Int) (p : JStr) :
    ∀ cols : List ColumnMeta, (∀ c ∈ cols, c.propertyName ≠ p) →
      (cols.filterMap (fInc rid idx)).lookup p = none := by
  intro cols
  induction cols with
  | nil => intro _; rfl
  | cons c rest ih =>
      intro h
      by_cases hg : c.generationStrategy = some GenStrategy.increment
      · have hf : fInc rid idx c = some (c.propertyName, Value.vInt (rid + idx)) := by
          unfold fInc
          rw [if_pos hg]
        rw [List.filterMap_cons, hf]
        have hne : (p == c.propertyName) = false := by
          simp only [beq_eq_false_iff_ne, ne_eq]
          exact fun hh => h c (List.mem_cons_self _ _) hh.symm
        simp only [List.lookup, hne]
        exact ih fun c' hc' => h c' (List.mem_cons_of_mem _ hc')
      · have hf : fInc rid idx c = none := by
          unfold fInc
          rw [if_neg hg]
        rw [List.filterMap_cons, hf]
        exact ih fun c' hc' => h c' (List.mem_cons_of_mem _ hc')

theorem lookup_fInc_mem (rid idx : Int) (col : ColumnMeta) :
    ∀ cols : List ColumnMeta, (cols.map (fun c => c.propertyName)).Nodup → col ∈ cols →
      (cols.filterMap (fInc rid idx)).lookup col.propertyName =
        (if col.generationStrategy = some GenStrategy.increment then
          some (Value.vInt (rid + idx)) else none) := by
  intro cols
  induction cols with
  | nil => intro _ hmem; exact absurd hmem (List.not_mem_nil _)
  | cons c rest ih =>
      intro hnd hmem
      obtain ⟨hnd1, hnd2⟩ : (∀ x ∈ rest, ¬x.propertyName = c.propertyName) ∧
          (rest.map (fun x => x.propertyName)).Nodup := by simpa using hnd
      rcases List.mem_cons.mp hmem with rfl | hmem'
      · by_cases hg : col.generationStrategy = some GenStrategy.increment
        · have hf : fInc rid idx col = some (col.propertyName, Value.vInt (rid + idx)) := by
            unfold fInc
            rw [if_pos hg]
          rw [List.filterMap_cons, hf, if_pos hg]
          simp [List.lookup]
        · have hf : fInc rid idx col = none := by
            unfold fInc
            rw [if_neg hg]
          rw [List.filterMap_cons, hf, if_neg hg]
          exact lookup_fInc_notMem rid idx col.propertyName rest
            (fun c' hc' h => hnd1 c' hc' h)
      · have hne : (col.propertyName == c.propertyName) = false := by
          simp only [beq_eq_false_iff_ne, ne_eq]
          exact hnd1 col hmem'
        by_cases hg : c.generationStrategy = some GenStrategy.increment
        · have hf : fInc rid idx c = some (c.propertyName, Value.vInt (rid + idx)) := by
            unfold fInc
            rw [if_pos hg]
          rw [List.filterMap_cons, hf]
          simp only [List.lookup, hne]
          exact ih hnd2 hmem'
        · have hf : fInc rid idx c = none := by
            unfold fInc
            rw [if_neg hg]
          rw [List.filterMap_cons, hf]
          exact ih hnd2 hmem'

theorem createGeneratedMap_char (meta : EntityMeta) (fs : List (JStr × Value)) (rid idx : Int)
    (hrid : rid ≠ 0) (hnd : (meta.generatedColumns.map (fun c => c.propertyName)).Nodup) :
    createGeneratedMap meta (some ⟨some rid, fs⟩) idx =
      (if (incList meta rid idx).isEmpty then none else some (incList meta rid idx)) := by
  have hfold := genFold_eq
    (fun gc => if gc.generationStrategy = some GenStrategy.increment ∧ rid ≠ 0 then
      some (Value.vInt (rid + idx)) else none)
    meta.generatedColumns [] hnd (by simp)
  have hmap : meta.generatedColumns.filterMap
      (fun gc => ((if gc.generationStrategy = some GenStrategy.increment ∧ rid ≠ 0 then
        some (Value.vInt (rid + idx)) else none).map (fun v => (gc.propertyName, v)))) =
      incList meta rid idx := by
    unfold incList
    apply List.filterMap_congr
    intro gc _
    unfold fInc
    by_cases hg : gc.generationStrategy = some GenStrategy.increment
    · simp [hg, hrid]
    · simp [hg]
  simp only [createGeneratedMap]
  rw [hfold, List.nil_append, hmap]
  cases h : incList meta rid idx with
  | nil => simp
  | cons a l => simp

/-! ## Claim C3 -/

/-- C3. When the insert result carries a truthy auto-increment id,
`createGeneratedMap` assigns to every increment-strategy generated column
the value `parseInt(insertId) + entityIndex` (insertId 100 at batch
indices 0 and 1 yields ids 100 and 101), populates no value for columns
with a non-increment generation strategy, and returns absent rather than
an empty map when nothing was generated; an absent insert result yields
absent. -/
theorem createGeneratedMap_spec :
    (∀ (meta : EntityMeta) (idx : Int), createGeneratedMap meta none idx = none) ∧
    (∀ (meta : EntityMeta) (fs : List (JStr × Value)) (rid idx : Int),
      rid ≠ 0 → (meta.generatedColumns.map (fun c => c.propertyName)).Nodup →
      createGeneratedMap meta (some ⟨some rid, fs⟩) idx =
        (if (incList meta rid idx).isEmpty then none else some (incList meta rid idx))) ∧
    (∀ (meta : EntityMeta) (fs : List (JStr × Value)) (rid idx : Int) (col : ColumnMeta),
      rid ≠ 0 → (meta.generatedColumns.map (fun c => c.propertyName)).Nodup →
      col ∈ meta.generatedColumns →
      col.generationStrategy = some GenStrategy.increment →
      ((createGeneratedMap meta (some ⟨some rid, fs⟩) idx).getD []).lookup col.propertyName =
        some (Value.vInt (rid + idx))) ∧
    (∀ (meta : EntityMeta) (fs : List (JStr × Value)) (rid idx : Int) (col : ColumnMeta),
      rid ≠ 0 → (meta.generatedColumns.map (fun c => c.propertyName)).Nodup →
      col ∈ meta.generatedColumns →
      col.generationStrategy ≠ some GenStrategy.increment →
      ((createGeneratedMap meta (some ⟨some rid, fs⟩) idx).getD []).lookup col.propertyName =
        none) ∧
    createGeneratedMap metaIncrement (some ⟨some 100, []⟩) 0 =
      some [(("id").toList, Value.vInt 100)] ∧
    createGeneratedMap metaIncrement (some ⟨some 100, []⟩) 1 =
      some [(("id").toList, Value.vInt 101)] ∧
    createGeneratedMap metaUuidOnly (some ⟨some 100, []⟩) 0 = none := by
  refine ⟨fun _ _ => rfl, fun meta fs rid idx h1 h2 => createGeneratedMap_char meta fs rid idx h1 h2,
    ?_, ?_, by rfl, by rfl, by rfl⟩
  · intro meta fs rid idx col h1 h2 hmem hinc
    rw [createGeneratedMap_char meta fs rid idx h1 h2]
    have hlk : (incList meta rid idx).lookup col.propertyName =
        (if col.generationStrategy = some GenStrategy.increment then
          some (Value.vInt (rid + idx)) else none) :=
      lookup_fInc_mem rid idx col meta.generatedColumns h2 hmem
    rw [if_pos hinc] at hlk
    have hne : (incList meta rid idx).isEmpty = false := by
      cases hil : incList meta rid idx with
      | nil =>
          rw [hil] at hlk
          exact absurd hlk (by simp [List.lookup])
      | cons a l => rfl
    rw [if_neg (by simp [hne]), Option.getD_some]
    exact hlk
  · intro meta fs rid idx col h1 h2 hmem hninc
    rw [createGeneratedMap_char meta fs rid idx h1 h2]
    have hlk : (incList meta rid idx).lookup col.propertyName =
        (if col.generationStrategy = some GenStrategy.increment then
          some (Value.vInt (rid + idx)) else none) :=
      lookup_fInc_mem rid idx col meta.generatedColumns h2 hmem
    rw [if_neg hninc] at hlk
    by_cases hemp : (incList meta rid idx).isEmpty = true
    · rw [if_pos hemp]
      rfl
    · rw [if_neg hemp, Option.getD_some]
      exact hlk

/-- Witness for C3 at a concrete entity and insert id. -/
theorem createGeneratedMap_spec_witness :
    (7 : Int) ≠ 0 ∧
    (metaIncrement.generatedColumns.map (fun c => c.propertyName)).Nodup ∧
    createGeneratedMap metaIncrement (some ⟨some 7, []⟩) 2 =
      (if (incList metaIncrement 7 2).isEmpty then none
       else some (incList metaIncrement 7 2)) :=
  ⟨by decide, by decide,
   createGeneratedMap_spec.2.1 metaIncrement [] 7 2 (by decide) (by decide)⟩

/-! ## Claim C4: helper lemmas -/

theorem replaceLoop_nil (params : List (JStr × Value)) (fuel : Nat) (vals : List Value) :
    replaceLoop params fuel [] vals = ([], vals) := by
  cases fuel <;> rfl

theorem exists_extra_tail {r : JStr × List Value} {vals tail : List Value}
    (h : ∃ e, r.2 = (vals ++ tail) ++ e) : ∃ e, r.2 = vals ++ e := by
  obtain ⟨e, he⟩ := h
  exact ⟨tail ++ e, by rw [he, List.append_assoc]⟩

theorem replaceLoop_vals_prefix (params : List (JStr × Value)) :
    ∀ (fuel : Nat) (cs : List Char) (vals : List Value),
      ∃ extra, (replaceLoop params fuel cs vals).2 = vals ++ extra := by
  intro fuel
  induction fuel with
  | zero => exact fun cs vals => ⟨[], by simp [replaceLoop]⟩
  | succ n ih =>
      intro cs vals
      cases cs with
      | nil => exact ⟨[], by simp [replaceLoop]⟩
      | cons c rest =>
          simp only [replaceLoop]
          split
          · split
            · split
              · exact ih _ _
              · exact exists_extra_tail (ih _ _)
              · exact ih _ _
            · split
              · exact ih _ _
              · split
                · exact ih _ _
                · exact ih _ _
                · exact exists_extra_tail (ih _ _)
          · exact ih _ _

theorem replaceLoop_plain_token (params : List (JStr × Value)) (k : JStr) (v : Value)
    (vals : List Value) (fuel : Nat)
    (hne : k ≠ []) (hall : ∀ c ∈ k, nameChar c = true) (hnd : k.take 3 ≠ ['.', '.', '.'])
    (hlk : lookupParam k params = some v) (hnf : ∀ r, v ≠ .vFunc r) :
    replaceLoop params (fuel + 1) (':' :: k) vals = (['?'], vals ++ [v]) := by
  have htw : k.takeWhile nameChar = k := List.takeWhile_eq_self_iff.mpr hall
  have hcond : ¬(k.take 3 = ['.', '.', '.'] ∧ ((k.drop 3).takeWhile nameChar) ≠ []) :=
    fun h => hnd h.1
  rw [replaceLoop, if_pos rfl, if_neg hcond]
  simp only [htw, if_neg hne, hlk, List.drop_length, replaceLoop_nil]

theorem replaceLoop_spread_token (params : List (JStr × Value)) (k : JStr) (xs : List Value)
    (vals : List Value) (fuel : Nat)
    (hne : k ≠ []) (hall : ∀ c ∈ k, nameChar c = true)
    (hlk : lookupParam k params = some (.vArr xs)) :
    replaceLoop params (fuel + 1) (':' :: '.' :: '.' :: '.' :: k) vals =
      (spreadMarkers xs.length, vals ++ xs) := by
  have htw : k.takeWhile nameChar = k := List.takeWhile_eq_self_iff.mpr hall
  have hcond : (('.' :: '.' :: '.' :: k).take 3 = ['.', '.', '.'] ∧
      ((('.' :: '.' :: '.' :: k).drop 3).takeWhile nameChar) ≠ []) := by
    constructor
    · rfl
    · show k.takeWhile nameChar ≠ []
      rw [htw]
      exact hne
  rw [replaceLoop, if_pos rfl, if_pos hcond]
  simp only [List.drop_succ_cons, List.drop_zero, htw, hlk, List.drop_length, replaceLoop_nil,
    List.append_nil]

theorem replaceLoop_unknown_token (params : List (JStr × Value)) (k : JStr)
    (vals : List Value) (fuel : Nat)
    (hne : k ≠ []) (hall : ∀ c ∈ k, nameChar c = true) (hnd : k.take 3 ≠ ['.', '.', '.'])
    (hlk : lookupParam k params = none) :
    replaceLoop params (fuel + 1) (':' :: k) vals = (':' :: k, vals) := by
  have htw : k.takeWhile nameChar = k := List.takeWhile_eq_self_iff.mpr hall
  have hcond : ¬(k.take 3 = ['.', '.', '.'] ∧ ((k.drop 3).takeWhile nameChar) ≠ []) :=
    fun h => hnd h.1
  rw [replaceLoop, if_pos rfl, if_neg hcond]
  simp only [htw, if_neg hne, hlk, List.drop_length, replaceLoop_nil, List.append_nil]

theorem replaceLoop_function_token (params : List (JStr × Value)) (k ret : JStr)
    (vals : List Value) (fuel : Nat)
    (hne : k ≠ []) (hall : ∀ c ∈ k, nameChar c = true) (hnd : k.take 3 ≠ ['.', '.', '.'])
    (hlk : lookupParam k params = some (.vFunc ret)) :
    replaceLoop params (fuel + 1) (':' :: k) vals = (ret, vals) := by
  have htw : k.takeWhile nameChar = k := List.takeWhile_eq_self_iff.mpr hall
  have hcond : ¬(k.take 3 = ['.', '.', '.'] ∧ ((k.drop 3).takeWhile nameChar) ≠ []) :=
    fun h => hnd h.1
  rw [replaceLoop, if_pos rfl, if_neg hcond]
  simp only [htw, if_neg hne, hlk, List.drop_length, replaceLoop_nil, List.append_nil]

/-! ## Claim C4 -/

/-- C4. `escapeQueryWithParameters` first appends all native-parameter
values in key order (the output value list always extends them); with an
empty named-parameter map the SQL is returned unchanged; a `:name` token
bound to a plain value becomes one positional marker with the value
appended; a `:...name` token bound to an array becomes one marker per
element joined by a comma-space with the elements appended in order; an
unknown token is left literally unchanged; a function-valued binding is
invoked and its result spliced without entering the value list; and the
claim's concrete query binds to four ordered values and four markers. -/
theorem escapeQueryWithParameters_spec :
    (∀ (sql : JStr) (native : List (JStr × Value)),
      escapeQueryWithParameters sql [] native = (sql, native.map (fun p => p.2))) ∧
    (∀ (sql : JStr) (params native : List (JStr × Value)),
      ∃ extra, (escapeQueryWithParameters sql params native).2 =
        native.map (fun p => p.2) ++ extra) ∧
    (∀ (k : JStr) (v : Value) (params native : List (JStr × Value)),
      k ≠ [] → (∀ c ∈ k, nameChar c = true) → k.take 3 ≠ ['.', '.', '.'] →
      lookupParam k params = some v → (∀ r, v ≠ .vFunc r) →
      escapeQueryWithParameters (':' :: k) params native =
        (['?'], native.map (fun p => p.2) ++ [v])) ∧
    (∀ (k : JStr) (xs : List Value) (params native : List (JStr × Value)),
      k ≠ [] → (∀ c ∈ k, nameChar c = true) →
      lookupParam k params = some (.vArr xs) →
      escapeQueryWithParameters (':' :: '.' :: '.' :: '.' :: k) params native =
        (spreadMarkers xs.length, native.map (fun p => p.2) ++ xs)) ∧
    (∀ (k : JStr) (params native : List (JStr × Value)),
      k ≠ [] → (∀ c ∈ k, nameChar c = true) → k.take 3 ≠ ['.', '.', '.'] →
      lookupParam k params = none → params ≠ [] →
      escapeQueryWithParameters (':' :: k) params native =
        (':' :: k, native.map (fun p => p.2))) ∧
    (∀ (k ret : JStr) (params native : List (JStr × Value)),
      k ≠ [] → (∀ c ∈ k, nameChar c = true) → k.take 3 ≠ ['.', '.', '.'] →
      lookupParam k params = some (.vFunc ret) →
      escapeQueryWithParameters (':' :: k) params native =
        (ret, native.map (fun p => p.2))) ∧
    escapeQueryWithParameters ("WHERE a = :x AND b IN (:...y)").toList
      [(("x").toList, .vInt 5), (("y").toList, .vArr [.vInt 1, .vInt 2, .vInt 3])] [] =
      (("WHERE a = ? AND b IN (?, ?, ?)").toList, [.vInt 5, .vInt 1, .vInt 2, .vInt 3]) := by
  have hparams : ∀ (k : JStr) (v : Value) (params : List (JStr × Value)),
      lookupParam k params = some v → params.isEmpty = false := by
    intro k v params h
    cases params
    · exact absurd h (by simp [lookupParam])
    · rfl
  refine ⟨fun sql native => rfl, ?_, ?_, ?_, ?_, ?_, by rfl⟩
  · intro sql params native
    unfold escapeQueryWithParameters
    by_cases hp : params.isEmpty
    · rw [if_pos hp]
      exact ⟨[], by simp⟩
    · rw [if_neg hp]
      exact replaceLoop_vals_prefix params _ sql _
  · intro k v params native h1 h2 h3 h4 h5
    unfold escapeQueryWithParameters
    rw [if_neg (by simp [hparams k v params h4])]
    exact replaceLoop_plain_token params k v _ _ h1 h2 h3 h4 h5
  · intro k xs params native h1 h2 h3
    unfold escapeQueryWithParameters
    rw [if_neg (by simp [hparams k _ params h3])]
    exact replaceLoop_spread_token params k xs _ _ h1 h2 h3
  · intro k params native h1 h2 h3 h4 h5
    unfold escapeQueryWithParameters
    rw [if_neg (by simp [List.isEmpty_iff, h5])]
    exact replaceLoop_unknown_token params k _ _ h1 h2 h3 h4
  · intro k ret params native h1 h2 h3 h4
    unfold escapeQueryWithParameters
    rw [if_neg (by simp [hparams k _ params h4])]
    exact replaceLoop_function_token params k ret _ _ h1 h2 h3 h4

/-- Witness for C4: the plain-token conjunct at a concrete binding. -/
theorem escapeQueryWithParameters_spec_witness :
    (("x").toList ≠ ([] : JStr)) ∧
    lookupParam ("x").toList [(("x").toList, Value.vInt 9)] = some (Value.vInt 9) ∧
    escapeQueryWithParameters (':' :: ("x").toList) [(("x").toList, Value.vInt 9)] [] =
      (['?'], [Value.vInt 9]) :=
  ⟨by decide, by rfl,
   escapeQueryWithParameters_spec.2.2.1 ("x").toList (Value.vInt 9)
     [(("x").toList, Value.vInt 9)] [] (by decide) (by decide) (by decide) (by rfl)
     (fun r h => by cases h)⟩

/-! ## Claim C2: helper lemmas -/

theorem compareDefaultValues_refl (x : Option JStr) : compareDefaultValues x x = true := by
  cases x
  · rfl
  · exact beq_self_eq_true _

theorem isArraysEqual_refl (l : List JStr) : isArraysEqual l l = true := by
  unfold isArraysEqual
  rw [Bool.and_eq_true]
  refine ⟨beq_self_eq_true _, ?_⟩
  rw [List.all_eq_true]
  intro x hx
  exact List.elem_eq_true_of_mem hx

theorem isColumnChanged_self (c : ColumnMeta) :
    isColumnChanged (liveCounterpart c) c = false := by
  unfold isColumnChanged liveCounterpart compareNullableValues
  cases henum : c.enum <;>
    simp [henum, compareDefaultValues_refl, isArraysEqual_refl]

theorem isColumnChanged_uuid_isGenerated (c : ColumnMeta) (b : Bool)
    (h : c.generationStrategy = some GenStrategy.uuid) :
    isColumnChanged { liveCounterpart c with isGenerated := b } c = false := by
  unfold isColumnChanged liveCounterpart compareNullableValues
  cases henum : c.enum <;>
    simp [henum, h, compareDefaultValues_refl, isArraysEqual_refl]

theorem isColumnChanged_length (c : ColumnMeta) (l : JStr)
    (hlen : getColumnLength (withLength c l) ≠ (liveCounterpart c).length) :
    isColumnChanged (liveCounterpart c) (withLength c l) = true := by
  unfold isColumnChanged
  have h2 : ((liveCounterpart c).length != getColumnLength (withLength c l)) = true := by
    rw [bne_iff_ne]
    exact fun hh => hlen hh.symm
  simp [h2]

/-! ## Claim C2 -/

/-- C2. `findChangedColumns` returns exactly the desired columns whose
first live counterpart (matched by name against the database name) reports
a change; a desired column identical to its live counterpart in every
compared field yields no entry; changing only the declared length yields
exactly that desired-column object; only desired columns are ever
returned, and a desired column with no live counterpart never is; a
difference in isGenerated alone is ignored when the desired generation
strategy is uuid. -/
theorem findChangedColumns_spec :
    (∀ (live : List TableColumn) (desired : List ColumnMeta) (c : ColumnMeta),
      c ∈ findChangedColumns live desired ↔
        c ∈ desired ∧ ∃ tc, live.find? (fun t => t.name == c.databaseName) = some tc ∧
          isColumnChanged tc c = true) ∧
    (∀ c : ColumnMeta, findChangedColumns [liveCounterpart c] [c] = []) ∧
    (∀ (c : ColumnMeta) (l : JStr),
      getColumnLength (withLength c l) ≠ (liveCounterpart c).length →
      findChangedColumns [liveCounterpart c] [withLength c l] = [withLength c l]) ∧
    (∀ (live : List TableColumn) (desired : List ColumnMeta) (c : ColumnMeta),
      c ∈ findChangedColumns live desired → c ∈ desired) ∧
    (∀ (live : List TableColumn) (desired : List ColumnMeta) (c : ColumnMeta),
      c ∈ desired → live.find? (fun t => t.name == c.databaseName) = none →
      c ∉ findChangedColumns live desired) ∧
    (∀ (c : ColumnMeta) (b : Bool), c.generationStrategy = some GenStrategy.uuid →
      findChangedColumns [{ liveCounterpart c with isGenerated := b }] [c] = []) := by
  have hmem : ∀ (live : List TableColumn) (desired : List ColumnMeta) (c : ColumnMeta),
      c ∈ findChangedColumns live desired ↔
        c ∈ desired ∧ ∃ tc, live.find? (fun t => t.name == c.databaseName) = some tc ∧
          isColumnChanged tc c = true := by
    intro live desired c
    unfold findChangedColumns
    rw [List.mem_filter]
    constructor
    · rintro ⟨hdes, hp⟩
      refine ⟨hdes, ?_⟩
      cases hf : live.find? (fun t => t.name == c.databaseName) with
      | none => rw [hf] at hp; exact absurd hp (by simp)
      | some tc => rw [hf] at hp; exact ⟨tc, rfl, hp⟩
    · rintro ⟨hdes, tc, hf, hch⟩
      exact ⟨hdes, by rw [hf]; exact hch⟩
  refine ⟨hmem, ?_, ?_, ?_, ?_, ?_⟩
  · intro c
    unfold findChangedColumns
    simp [List.filter_cons, show (liveCounterpart c).name = c.databaseName from rfl,
      isColumnChanged_self]
  · intro c l hlen
    unfold findChangedColumns
    simp [List.filter_cons, show (liveCounterpart c).name = (withLength c l).databaseName from rfl,
      isColumnChanged_length c l hlen]
  · intro live desired c hc
    exact ((hmem live desired c).mp hc).1
  · intro live desired c _ hf hc
    obtain ⟨_, tc, hf2, _⟩ := (hmem live desired c).mp hc
    rw [hf] at hf2
    exact Option.noConfusion hf2
  · intro c b h
    unfold findChangedColumns
    have hfind : List.find? (fun tc => tc.name == c.databaseName)
        [{ liveCounterpart c with isGenerated := b }] =
        some { liveCounterpart c with isGenerated := b } :=
      List.find?_cons_of_pos [] (beq_self_eq_true _)
    rw [List.filter_cons]
    simp only [hfind, isColumnChanged_uuid_isGenerated c b h, Bool.false_eq_true, if_false,
      List.filter_nil]

/-- Witness for C2: the length-only-change conjunct at a concrete column. -/
theorem findChangedColumns_spec_witness :
    getColumnLength (withLength baseCol ("5").toList) ≠ (liveCounterpart baseCol).length ∧
    findChangedColumns [liveCounterpart baseCol] [withLength baseCol ("5").toList] =
      [withLength baseCol ("5").toList] :=
  ⟨by decide, findChangedColumns_spec.2.2.1 baseCol ("5").toList (by decide)⟩

/-! ## Claim C1: digit and number-parsing lemmas -/

theorem digitChar_val {d : Nat} (h : d < 10) : (Nat.digitChar d).toNat - 48 = d := by
  interval_cases d <;> rfl

theorem digitChar_isDigit {d : Nat} (h : d < 10) : (Nat.digitChar d).isDigit = true := by
  interval_cases d <;> rfl

theorem charsToNat_append_one (xs : JStr) (c : Char) :
    charsToNat (xs ++ [c]) = charsToNat xs * 10 + (c.toNat - 48) := by
  unfold charsToNat
  rw [List.foldl_append]
  rfl

theorem charsToNat_digits : ∀ ds : List Nat, (∀ d ∈ ds, d < 10) →
    charsToNat ((ds.map Nat.digitChar).reverse) = Nat.ofDigits 10 ds := by
  intro ds
  induction ds with
  | nil => intro _; rfl
  | cons d tl ih =>
      intro h
      rw [List.map_cons, List.reverse_cons, charsToNat_append_one,
        ih fun x hx => h x (List.mem_cons_of_mem _ hx),
        digitChar_val (h d (List.mem_cons_self _ _)), Nat.ofDigits_cons]
      ring

theorem charsToNat_natToChars (n : Nat) : charsToNat (natToChars n) = n := by
  unfold natToChars
  split
  · next h => subst h; rfl
  · rw [charsToNat_digits _ fun d hd => Nat.digits_lt_base (by norm_num) hd]
    exact Nat.ofDigits_digits 10 n

theorem natToChars_ne_nil (n : Nat) : natToChars n ≠ [] := by
  unfold natToChars
  split
  · simp
  · next h => simp [Nat.digits_eq_nil_iff_eq_zero, h]

theorem natToChars_all_digits (n : Nat) : ∀ c ∈ natToChars n, c.isDigit = true := by
  unfold natToChars
  split
  · intro c hc
    simp only [List.mem_singleton] at hc
    subst hc
    rfl
  · intro c hc
    rw [List.mem_reverse] at hc
    obtain ⟨d, hd, rfl⟩ := List.mem_map.mp hc
    exact digitChar_isDigit (Nat.digits_lt_base (by norm_num) hd)

theorem isDigit_ne_minus {c : Char} (h : c.isDigit = true) : c ≠ minusChar := by
  intro hh
  subst hh
  exact absurd h (by decide)

theorem isDigit_ne_dquote {c : Char} (h : c.isDigit = true) : c ≠ dquote := by
  intro hh
  subst hh
  exact absurd h (by decide)

theorem isEmpty_false_of_ne_nil {α : Type} {l : List α} (h : l ≠ []) : l.isEmpty = false := by
  cases l
  · exact absurd rfl h
  · rfl

theorem jsStrToNum_digits (cs : JStr) (hne : cs ≠ []) (hd : ∀ c ∈ cs, c.isDigit = true) :
    jsStrToNum cs = some ((charsToNat cs : Nat) : Int) := by
  cases cs with
  | nil => exact absurd rfl hne
  | cons c rest =>
      simp only [jsStrToNum]
      rw [if_neg (isDigit_ne_minus (hd c (List.mem_cons_self _ _)))]
      rw [if_pos (List.all_eq_true.mpr hd)]

theorem jsStrToNum_intToChars (k : Int) : jsStrToNum (intToChars k) = some k := by
  unfold intToChars
  split
  · next hneg =>
      have hnn := natToChars_ne_nil k.natAbs
      simp only [jsStrToNum]
      rw [if_pos trivial]
      rw [if_pos (by
        rw [Bool.and_eq_true, isEmpty_false_of_ne_nil hnn]
        exact ⟨rfl, List.all_eq_true.mpr (natToChars_all_digits _)⟩)]
      rw [charsToNat_natToChars]
      exact congrArg some (by omega)
  · next hpos =>
      rw [jsStrToNum_digits _ (natToChars_ne_nil _) (natToChars_all_digits _),
        charsToNat_natToChars]
      exact congrArg some (by omega)

theorem parseIntStr_intToChars (k : Int) : parseIntStr (intToChars k) = some k := by
  unfold intToChars
  split
  · next hneg =>
      have hnn := natToChars_ne_nil k.natAbs
      simp only [parseIntStr]
      rw [if_pos trivial]
      simp only [List.takeWhile_eq_self_iff.mpr (natToChars_all_digits k.natAbs),
        isEmpty_false_of_ne_nil hnn, Bool.false_eq_true, if_false, charsToNat_natToChars]
      exact congrArg some (by omega)
  · next hpos =>
      obtain ⟨c, rest, hcons⟩ : ∃ c rest, natToChars k.toNat = c :: rest := by
        cases hh : natToChars k.toNat with
        | nil => exact absurd hh (natToChars_ne_nil _)
        | cons c rest => exact ⟨c, rest, rfl⟩
      have hall : ∀ x ∈ c :: rest, x.isDigit = true := by
        rw [← hcons]
        exact natToChars_all_digits _
      rw [hcons]
      simp only [parseIntStr]
      rw [if_neg (isDigit_ne_minus (hall c (List.mem_cons_self _ _)))]
      simp only [List.takeWhile_eq_self_iff.mpr hall, List.isEmpty_cons, Bool.false_eq_true,
        if_false]
      rw [← hcons, charsToNat_natToChars]
      exact congrArg some (by omega)

theorem numCoerce_intToChars (k : Int) : numCoerce (.vStr (intToChars k)) = some k :=
  jsStrToNum_intToChars k

theorem parseIntV_intToChars (k : Int) : parseIntV (.vStr (intToChars k)) = .vInt k := by
  show (match parseIntStr (intToChars k) with
    | some j => Value.vInt j
    | none => Value.vNaN) = Value.vInt k
  rw [parseIntStr_intToChars]

theorem intToChars_ne_nil (k : Int) : intToChars k ≠ [] := by
  unfold intToChars
  split
  · simp
  · exact natToChars_ne_nil _

theorem intToChars_chars (k : Int) : ∀ c ∈ intToChars k, c.isDigit = true ∨ c = minusChar := by
  unfold intToChars
  split
  · intro c hc
    rcases List.mem_cons.mp hc with rfl | hc2
    · exact Or.inr rfl
    · exact Or.inl (natToChars_all_digits _ c hc2)
  · intro c hc
    exact Or.inl (natToChars_all_digits _ c hc)

/-! ## Claim C1: JSON codec lemmas -/

theorem jsonUnescape_jsonEscape (s : JStr) : jsonUnescape (jsonEscape s) = s := by
  induction s with
  | nil => rfl
  | cons c t ih =>
      show jsonUnescape ((if c = dquote ∨ c = bslash then [bslash, c] else [c]) ++ jsonEscape t)
        = c :: t
      by_cases hc : c = dquote ∨ c = bslash
      · rw [if_pos hc]
        show jsonUnescape (bslash :: c :: jsonEscape t) = c :: t
        rw [show jsonUnescape (bslash :: c :: jsonEscape t) = c :: jsonUnescape (jsonEscape t)
          from rfl, ih]
      · rw [if_neg hc]
        show jsonUnescape (c :: jsonEscape t) = c :: t
        have hcb : ¬c = bslash := fun hh => hc (Or.inr hh)
        have hstep : jsonUnescape (c :: jsonEscape t) = c :: jsonUnescape (jsonEscape t) := by
          conv_lhs => unfold jsonUnescape
          rw [if_neg hcb]
        rw [hstep, ih]

theorem jsonParse_stringify_vStr (s : JStr) :
    jsonParse (jsonStringify (.vStr s)) = .vStr s := by
  show jsonParse (dquote :: (jsonEscape s ++ [dquote])) = .vStr s
  simp only [jsonParse]
  rw [if_pos trivial]
  rw [if_pos ?cond]
  · show Value.vStr (jsonUnescape ((jsonEscape s ++ [dquote]).dropLast)) = Value.vStr s
    rw [List.dropLast_concat, jsonUnescape_jsonEscape]
  case cond =>
    constructor
    · show (dquote :: (jsonEscape s ++ [dquote])).getLast? = some dquote
      rw [← List.cons_append, List.getLast?_concat]
    · show 2 ≤ (dquote :: (jsonEscape s ++ [dquote])).length
      simp

theorem jsonParse_stringify_vInt (n : Int) :
    jsonParse (jsonStringify (.vInt n)) = .vInt n := by
  show jsonParse (intToChars n) = .vInt n
  obtain ⟨c, rest, hcons⟩ : ∃ c rest, intToChars n = c :: rest := by
    cases hh : intToChars n with
    | nil => exact absurd hh (intToChars_ne_nil _)
    | cons c rest => exact ⟨c, rest, rfl⟩
  have hcd : ¬c = dquote := by
    rcases intToChars_chars n c (by rw [hcons]; exact List.mem_cons_self _ _) with hd | rfl
    · exact isDigit_ne_dquote hd
    · decide
  have hnum : jsonNumParse (c :: rest) = some n := by
    show jsStrToNum (c :: rest) = some n
    rw [← hcons]
    exact jsStrToNum_intToChars n
  rw [hcons]
  simp only [jsonParse]
  rw [if_neg hcd, hnum]

theorem jsonParse_stringify_vBool (b : Bool) :
    jsonParse (jsonStringify (.vBool b)) = .vBool b := by
  cases b <;> rfl

/-! ## Claim C1: delimited-array lemmas -/

theorem contains_false_not_mem {s : JStr} {c : Char} (h : s.contains c = false) : c ∉ s := by
  intro hmem
  have he : s.elem c = true := List.elem_eq_true_of_mem hmem
  have he2 : s.elem c = false := h
  rw [he] at he2
  exact Bool.noConfusion he2

theorem roundtrip_setArr (xs : List Value) (hne : xs.isEmpty = false)
    (hall : xs.all cleanSetElem = true) :
    stringToSimpleArray (simpleArrayToString (.vArr xs)) = .vArr xs := by
  show Value.vArr (((List.intercalate [','] (xs.map toStrV)).splitOn ',').map
    (fun t => Value.vStr t)) = Value.vArr xs
  have helems : ∀ v ∈ xs, ∃ s, v = Value.vStr s ∧ s.contains ',' = false := by
    intro v hv
    have hcv := List.all_eq_true.mp hall v hv
    cases v <;> simp [cleanSetElem] at hcv
    · next s => exact ⟨s, rfl, by simpa using hcv⟩
  have hsplit : (List.intercalate [','] (xs.map toStrV)).splitOn ',' = xs.map toStrV := by
    apply List.splitOn_intercalate
    · intro l hl
      obtain ⟨v, hv, rfl⟩ := List.mem_map.mp hl
      obtain ⟨s, rfl, hcf⟩ := helems v hv
      exact contains_false_not_mem hcf
    · have : xs ≠ [] := by
        cases xs
        · exact absurd hne (by simp)
        · simp
      simpa using this
  rw [hsplit, List.map_map]
  congr 1
  have : ∀ v ∈ xs, ((fun t => Value.vStr t) ∘ toStrV) v = id v := by
    intro v hv
    obtain ⟨s, rfl, _⟩ := helems v hv
    rfl
  rw [List.map_congr_left this, List.map_id]

/-! ## Claim C1: value-shape and dispatch lemmas -/

theorem representable_cases (col : ColumnMeta) (v : Value) (h : representable col v = true) :
    v = .vNull ∨ v = .vUndef ∨
      (v ≠ .vNull ∧ v ≠ .vUndef ∧ typeRepresentable col v = true) := by
  cases v
  case vNull => exact Or.inl rfl
  case vUndef => exact Or.inr (Or.inl rfl)
  all_goals exact Or.inr (Or.inr
    ⟨fun hh => Value.noConfusion hh, fun hh => Value.noConfusion hh, h⟩)

theorem isIntV_shape {v : Value} (h : isIntV v = true) : ∃ n, v = .vInt n := by
  cases v <;> simp [isIntV] at h
  exact ⟨_, rfl⟩

theorem isStrV_shape {v : Value} (h : isStrV v = true) : ∃ s, v = .vStr s := by
  cases v <;> simp [isStrV] at h
  exact ⟨_, rfl⟩

theorem isBoolV_shape {v : Value} (h : isBoolV v = true) : ∃ b, v = .vBool b := by
  cases v <;> simp [isBoolV] at h
  exact ⟨_, rfl⟩

theorem isDateV_shape {v : Value} (h : isDateV v = true) : ∃ ms, v = .vDate ms := by
  cases v <;> simp [isDateV] at h
  exact ⟨_, rfl⟩

theorem jsStrictEq_vInt {j : Int} {v : Value} (h : jsStrictEq (.vInt j) v = true) :
    v = .vInt j := by
  cases v <;> simp [jsStrictEq] at h
  rw [h]

theorem jsStrictEq_vStr {t : JStr} {v : Value} (h : jsStrictEq (.vStr t) v = true) :
    v = .vStr t := by
  cases v <;> simp [jsStrictEq] at h
  rw [h]

theorem prepare_eq_dispatch (col : ColumnMeta) (v : Value) (ht : col.transformer = none)
    (h1 : v ≠ .vNull) (h2 : v ≠ .vUndef) :
    preparePersistentValue v col = persistDispatch v col := by
  cases v <;> first
    | exact absurd rfl h1
    | exact absurd rfl h2
    | (unfold preparePersistentValue; rw [ht])

theorem hydrate_eq_dispatch (col : ColumnMeta) (v : Value) (ht : col.transformer = none)
    (h1 : v ≠ .vNull) (h2 : v ≠ .vUndef) :
    prepareHydratedValue v col = hydrateDispatch v col := by
  cases v <;> first
    | exact absurd rfl h1
    | exact absurd rfl h2
    | (unfold prepareHydratedValue; rw [ht])

theorem persistD_named_pass (col : ColumnMeta) (v : Value) (s : JStr)
    (hct : col.type = .named s)
    (n2 : s ≠ ("date").toList) (n3 : s ≠ ("time").toList) (n4 : s ≠ ("json").toList)
    (n5 : s ≠ ("timestamp").toList) (n6 : s ≠ ("datetime").toList)
    (n7 : s ≠ ("simple-array").toList) (n8 : s ≠ ("simple-json").toList)
    (n9 : s ≠ ("enum").toList) (n10 : s ≠ ("simple-enum").toList)
    (n11 : s ≠ ("set").toList) :
    persistDispatch v col = v := by
  unfold persistDispatch
  rw [hct]
  simp only [ctn]
  rw [if_neg (fun hh => ColType.noConfusion hh),
    if_neg (fun hh => n2 (ColType.named.inj hh)),
    if_neg (fun hh => n3 (ColType.named.inj hh)),
    if_neg (fun hh => n4 (ColType.named.inj hh)),
    if_neg (fun hh => hh.elim (fun a => n5 (ColType.named.inj a))
      (fun b => b.elim (fun a => n6 (ColType.named.inj a)) (fun a => ColType.noConfusion a))),
    if_neg (fun hh => n7 (ColType.named.inj hh)),
    if_neg (fun hh => n8 (ColType.named.inj hh)),
    if_neg (fun hh => hh.elim (fun a => n9 (ColType.named.inj a))
      (fun a => n10 (ColType.named.inj a))),
    if_neg (fun hh => n11 (ColType.named.inj hh)),
    if_neg (fun hh => ColType.noConfusion hh)]

theorem hydrateD_named_pass (col : ColumnMeta) (v : Value) (s : JStr)
    (hct : col.type = .named s)
    (m1 : s ≠ ("bool").toList) (m2 : s ≠ ("boolean").toList)
    (m3 : s ≠ ("datetime").toList) (m4 : s ≠ ("date").toList) (m5 : s ≠ ("json").toList)
    (m6 : s ≠ ("time").toList) (m7 : s ≠ ("simple-array").toList)
    (m8 : s ≠ ("simple-json").toList) (m9 : s ≠ ("enum").toList)
    (m10 : s ≠ ("simple-enum").toList) (m11 : s ≠ ("set").toList)
    (m12 : s ≠ ("bit").toList) :
    hydrateDispatch v col = v := by
  unfold hydrateDispatch
  rw [hct]
  simp only [ctn]
  rw [if_neg (fun hh => hh.elim (fun a => ColType.noConfusion a)
      (fun b => b.elim (fun a => m1 (ColType.named.inj a)) (fun a => m2 (ColType.named.inj a)))),
    if_neg (fun hh => hh.elim (fun a => m3 (ColType.named.inj a))
      (fun a => ColType.noConfusion a)),
    if_neg (fun hh => m4 (ColType.named.inj hh)),
    if_neg (fun hh => m5 (ColType.named.inj hh)),
    if_neg (fun hh => m6 (ColType.named.inj hh)),
    if_neg (fun hh => m7 (ColType.named.inj hh)),
    if_neg (fun hh => m8 (ColType.named.inj hh)),
    if_neg (fun hh => hh.1.elim (fun a => m9 (ColType.named.inj a))
      (fun a => m10 (ColType.named.inj a))),
    if_neg (fun hh => m11 (ColType.named.inj hh)),
    if_neg (fun hh => ColType.noConfusion hh),
    if_neg (fun hh => m12 (ColType.named.inj hh))]

/-! ## Claim C1 -/

/-- C1 counterexample. The round-trip law fails at bit columns: persisting
the number 5 at a bit column leaves it unchanged (no persist branch
matches bit), and hydrating the result feeds a plain number into the
bit-field decoder, whose non-buffer non-string fallback returns 0, not 5. -/
theorem roundtrip_marshal_bit_cex :
    bitCol.transformer = none ∧
    representable bitCol (.vInt 5) = true ∧
    prepareHydratedValue (preparePersistentValue (.vInt 5) bitCol) bitCol = .vInt 0 ∧
    Value.vInt 0 ≠ Value.vInt 5 := by
  refine ⟨rfl, rfl, rfl, ?_⟩
  intro h
  injection h with h2
  exact absurd h2 (by omega)

/-- C1 amended. For every column whose declared type is not bit and which
has no transformer, and for every application value representable at the
column's declared type (null and undefined everywhere; booleans at the
boolean family; integers at numeric columns; strings at date/time columns
and at enum columns without a homogeneous numeric domain; Date objects at
datetime/timestamp columns; JSON scalars at json/simple-json columns;
members of a homogeneous declared domain at enum columns; non-empty arrays
of comma-free strings at set/simple-array columns; anything at the
pass-through types), hydrating the persisted value reproduces it exactly.
Bit columns are the exception established by the counterexample. -/
theorem roundtrip_marshal (col : ColumnMeta) (v : Value)
    (ht : col.transformer = none) (hbit : col.type ≠ ctn "bit")
    (hr : representable col v = true) :
    prepareHydratedValue (preparePersistentValue v col) col = v := by
  rcases representable_cases col v hr with rfl | rfl | ⟨hv1, hv2, hrt⟩
  · simp only [preparePersistentValue, prepareHydratedValue, ht]
  · simp only [preparePersistentValue, prepareHydratedValue, ht]
  rw [prepare_eq_dispatch col v ht hv1 hv2]
  cases hct : col.type with
  | jsNumber =>
      simp only [typeRepresentable, hct] at hrt
      obtain ⟨n, rfl⟩ := isIntV_shape hrt
      have hpp : persistDispatch (Value.vInt n) col = Value.vInt n := by
        unfold persistDispatch
        rw [hct]
        rfl
      rw [hpp, hydrate_eq_dispatch col _ ht (fun hh => Value.noConfusion hh)
        (fun hh => Value.noConfusion hh)]
      unfold hydrateDispatch
      rw [hct]
      rfl
  | jsString =>
      have hpp : persistDispatch v col = v := by
        unfold persistDispatch
        rw [hct]
        rfl
      rw [hpp, hydrate_eq_dispatch col v ht hv1 hv2]
      unfold hydrateDispatch
      rw [hct]
      rfl
  | jsBuffer =>
      have hpp : persistDispatch v col = v := by
        unfold persistDispatch
        rw [hct]
        rfl
      rw [hpp, hydrate_eq_dispatch col v ht hv1 hv2]
      unfold hydrateDispatch
      rw [hct]
      rfl
  | jsBoolean =>
      simp only [typeRepresentable, hct] at hrt
      obtain ⟨b, rfl⟩ := isBoolV_shape hrt
      cases b
      · have hpp : persistDispatch (Value.vBool false) col = Value.vInt 0 := by
          unfold persistDispatch
          rw [hct]
          rfl
        rw [hpp, hydrate_eq_dispatch col _ ht (fun hh => Value.noConfusion hh)
          (fun hh => Value.noConfusion hh)]
        unfold hydrateDispatch
        rw [hct]
        rfl
      · have hpp : persistDispatch (Value.vBool true) col = Value.vInt 1 := by
          unfold persistDispatch
          rw [hct]
          rfl
        rw [hpp, hydrate_eq_dispatch col _ ht (fun hh => Value.noConfusion hh)
          (fun hh => Value.noConfusion hh)]
        unfold hydrateDispatch
        rw [hct]
        rfl
  | jsDate =>
      simp only [typeRepresentable, hct] at hrt
      obtain ⟨ms, rfl⟩ := isDateV_shape hrt
      have hpp : persistDispatch (Value.vDate ms) col = Value.vDate ms := by
        unfold persistDispatch
        rw [hct]
        rfl
      rw [hpp, hydrate_eq_dispatch col _ ht (fun hh => Value.noConfusion hh)
        (fun hh => Value.noConfusion hh)]
      unfold hydrateDispatch
      rw [hct]
      rfl
  | named s =>
      simp only [typeRepresentable, hct] at hrt
      by_cases hc1 : s = ("bool").toList ∨ s = ("boolean").toList
      · rw [if_pos hc1] at hrt
        obtain ⟨b, rfl⟩ := isBoolV_shape hrt
        have hpp : persistDispatch (Value.vBool b) col = Value.vBool b := by
          rcases hc1 with rfl | rfl <;> (unfold persistDispatch; rw [hct]; rfl)
        rw [hpp, hydrate_eq_dispatch col _ ht (fun hh => Value.noConfusion hh)
          (fun hh => Value.noConfusion hh)]
        have hhd : hydrateDispatch (Value.vBool b) col = Value.vBool (truthy (Value.vBool b)) := by
          rcases hc1 with rfl | rfl <;> (unfold hydrateDispatch; rw [hct]; rfl)
        rw [hhd]
        cases b <;> rfl
      rw [if_neg hc1] at hrt
      by_cases hc2 : s = ("datetime").toList ∨ s = ("timestamp").toList
      · rw [if_pos hc2] at hrt
        obtain ⟨ms, rfl⟩ := isDateV_shape hrt
        have hpp : persistDispatch (Value.vDate ms) col = Value.vDate ms := by
          rcases hc2 with rfl | rfl <;> (unfold persistDispatch; rw [hct]; rfl)
        rw [hpp, hydrate_eq_dispatch col _ ht (fun hh => Value.noConfusion hh)
          (fun hh => Value.noConfusion hh)]
        rcases hc2 with rfl | rfl <;> (unfold hydrateDispatch; rw [hct]; rfl)
      rw [if_neg hc2] at hrt
      by_cases hc3 : s = ("date").toList ∨ s = ("time").toList
      · rw [if_pos hc3] at hrt
        obtain ⟨s0, rfl⟩ := isStrV_shape hrt
        have hpp : persistDispatch (Value.vStr s0) col = Value.vStr s0 := by
          rcases hc3 with rfl | rfl <;> (unfold persistDispatch; rw [hct]; rfl)
        rw [hpp, hydrate_eq_dispatch col _ ht (fun hh => Value.noConfusion hh)
          (fun hh => Value.noConfusion hh)]
        rcases hc3 with rfl | rfl <;> (unfold hydrateDispatch; rw [hct]; rfl)
      rw [if_neg hc3] at hrt
      by_cases hc4 : s = ("json").toList ∨ s = ("simple-json").toList
      · rw [if_pos hc4] at hrt
        have hpp : persistDispatch v col = Value.vStr (jsonStringify v) := by
          rcases hc4 with rfl | rfl <;> (unfold persistDispatch; rw [hct]; rfl)
        rw [hpp, hydrate_eq_dispatch col _ ht (fun hh => Value.noConfusion hh)
          (fun hh => Value.noConfusion hh)]
        have hhd : hydrateDispatch (Value.vStr (jsonStringify v)) col =
            jsonParse (jsonStringify v) := by
          rcases hc4 with rfl | rfl <;> (unfold hydrateDispatch; rw [hct]; rfl)
        rw [hhd]
        rcases (by simpa [Bool.or_eq_true] using hrt :
          (isBoolV v = true ∨ isIntV v = true) ∨ isStrV v = true) with (hb | hi) | hs
        · obtain ⟨b, rfl⟩ := isBoolV_shape hb
          exact jsonParse_stringify_vBool b
        · obtain ⟨n, rfl⟩ := isIntV_shape hi
          exact jsonParse_stringify_vInt n
        · obtain ⟨s0, rfl⟩ := isStrV_shape hs
          exact jsonParse_stringify_vStr s0
      rw [if_neg hc4] at hrt
      by_cases hc5 : s = ("enum").toList ∨ s = ("simple-enum").toList
      · rw [if_pos hc5] at hrt
        have hpp : persistDispatch v col = Value.vStr (toStrV v) := by
          rcases hc5 with rfl | rfl <;> (unfold persistDispatch; rw [hct]; rfl)
        cases henum : col.enum with
        | none =>
            simp only [henum] at hrt
            obtain ⟨s0, rfl⟩ := isStrV_shape hrt
            rw [hpp, show toStrV (Value.vStr s0) = s0 from rfl,
              hydrate_eq_dispatch col _ ht (fun hh => Value.noConfusion hh)
                (fun hh => Value.noConfusion hh)]
            have hg : enumHydrateGuard col (Value.vStr s0) = false := by
              unfold enumHydrateGuard
              rw [henum]
            rcases hc5 with rfl | rfl <;> (unfold hydrateDispatch; rw [hct, hg]; rfl)
        | some es =>
            simp only [henum] at hrt
            rw [Bool.and_eq_true] at hrt
            obtain ⟨hdom, hany⟩ := hrt
            rw [List.any_eq_true] at hany
            obtain ⟨e, he, hje⟩ := hany
            by_cases hint : es.all isIntV = true
            · obtain ⟨j, rfl⟩ := isIntV_shape (List.all_eq_true.mp hint e he)
              have hv : v = Value.vInt j := jsStrictEq_vInt hje
              subst hv
              rw [hpp, show toStrV (Value.vInt j) = intToChars j from rfl,
                hydrate_eq_dispatch col _ ht (fun hh => Value.noConfusion hh)
                  (fun hh => Value.noConfusion hh)]
              have hg : enumHydrateGuard col (Value.vStr (intToChars j)) = true := by
                unfold enumHydrateGuard
                rw [henum, numCoerce_intToChars, parseIntV_intToChars, Bool.and_eq_true]
                exact ⟨rfl, List.any_eq_true.mpr ⟨Value.vInt j, he, hje⟩⟩
              have hhd : hydrateDispatch (Value.vStr (intToChars j)) col =
                  parseIntV (Value.vStr (intToChars j)) := by
                rcases hc5 with rfl | rfl <;> (unfold hydrateDispatch; rw [hct, hg]; rfl)
              rw [hhd]
              exact parseIntV_intToChars j
            · have hstr : es.all (fun e => match e with
                  | .vStr s => (jsStrToNum s).isNone
                  | _ => false) = true := by
                unfold enumDomainOK at hdom
                rw [Bool.or_eq_true] at hdom
                exact hdom.resolve_left hint
              obtain ⟨t, rfl, hnn⟩ : ∃ t, e = Value.vStr t ∧ (jsStrToNum t).isNone = true := by
                have h1 := List.all_eq_true.mp hstr e he
                cases e <;> simp at h1
                exact ⟨_, rfl, by simpa using h1⟩
              have hv : v = Value.vStr t := jsStrictEq_vStr hje
              subst hv
              rw [hpp, show toStrV (Value.vStr t) = t from rfl,
                hydrate_eq_dispatch col _ ht (fun hh => Value.noConfusion hh)
                  (fun hh => Value.noConfusion hh)]
              have hnc : numCoerce (Value.vStr t) = none := by
                show jsStrToNum t = none
                cases hjn : jsStrToNum t with
                | none => rfl
                | some x => rw [hjn] at hnn; exact absurd hnn (by simp)
              have hg : enumHydrateGuard col (Value.vStr t) = false := by
                unfold enumHydrateGuard
                rw [henum, hnc]
                rfl
              rcases hc5 with rfl | rfl <;> (unfold hydrateDispatch; rw [hct, hg]; rfl)
      rw [if_neg hc5] at hrt
      by_cases hc6 : s = ("set").toList ∨ s = ("simple-array").toList
      · rw [if_pos hc6] at hrt
        obtain ⟨xs, rfl⟩ : ∃ xs, v = Value.vArr xs := by
          cases v <;> first
            | exact ⟨_, rfl⟩
            | exact absurd hrt (by simp)
        have hrt2 : (!xs.isEmpty && xs.all cleanSetElem) = true := hrt
        rw [Bool.and_eq_true] at hrt2
        have hne : xs.isEmpty = false := by simpa using hrt2.1
        have hpp : persistDispatch (Value.vArr xs) col = simpleArrayToString (Value.vArr xs) := by
          rcases hc6 with rfl | rfl <;> (unfold persistDispatch; rw [hct]; rfl)
        rw [hpp, show simpleArrayToString (Value.vArr xs) =
            Value.vStr (List.intercalate [','] (xs.map toStrV)) from rfl,
          hydrate_eq_dispatch col _ ht (fun hh => Value.noConfusion hh)
            (fun hh => Value.noConfusion hh)]
        have hhd : hydrateDispatch (Value.vStr (List.intercalate [','] (xs.map toStrV))) col =
            stringToSimpleArray (Value.vStr (List.intercalate [','] (xs.map toStrV))) := by
          rcases hc6 with rfl | rfl <;> (unfold hydrateDispatch; rw [hct]; rfl)
        rw [hhd]
        exact roundtrip_setArr xs hne hrt2.2
      rw [if_neg hc6] at hrt
      by_cases hc7 : s = ("bit").toList
      · exact absurd (hct.trans (by rw [hc7]; rfl)) hbit
      rw [if_neg hc7] at hrt
      have hd2 : s ≠ ("date").toList := fun hh => hc3 (Or.inl hh)
      have hd3 : s ≠ ("time").toList := fun hh => hc3 (Or.inr hh)
      have hd4 : s ≠ ("json").toList := fun hh => hc4 (Or.inl hh)
      have hd5 : s ≠ ("timestamp").toList := fun hh => hc2 (Or.inr hh)
      have hd6 : s ≠ ("datetime").toList := fun hh => hc2 (Or.inl hh)
      have hd7 : s ≠ ("simple-array").toList := fun hh => hc6 (Or.inr hh)
      have hd8 : s ≠ ("simple-json").toList := fun hh => hc4 (Or.inr hh)
      have hd9 : s ≠ ("enum").toList := fun hh => hc5 (Or.inl hh)
      have hd10 : s ≠ ("simple-enum").toList := fun hh => hc5 (Or.inr hh)
      have hd11 : s ≠ ("set").toList := fun hh => hc6 (Or.inl hh)
      have hb1 : s ≠ ("bool").toList := fun hh => hc1 (Or.inl hh)
      have hb2 : s ≠ ("boolean").toList := fun hh => hc1 (Or.inr hh)
      rw [persistD_named_pass col v s hct hd2 hd3 hd4 hd5 hd6 hd7 hd8 hd9 hd10 hd11,
        hydrate_eq_dispatch col v ht hv1 hv2]
      exact hydrateD_named_pass col v s hct hb1 hb2 hd6 hd2 hd4 hd3 hd7 hd8 hd9 hd10 hd11 hc7

/-- Witness for C1 at a boolean column and the value true. -/
theorem roundtrip_marshal_witness :
    boolCol.transformer = none ∧
    boolCol.type ≠ ctn "bit" ∧
    representable boolCol (.vBool true) = true ∧
    prepareHydratedValue (preparePersistentValue (.vBool true) boolCol) boolCol =
      .vBool true :=
  ⟨rfl, by decide, rfl, roundtrip_marshal boolCol (.vBool true) rfl (by decide) rfl⟩

end PS

